import Mathlib

/-!
Verification of the deployment-helper library `src/publish/src/util.js`.

The development shallowly embeds the JavaScript source: JSON documents
become an inductive type `Json`, the filesystem becomes an association
list from file names to file contents, `process.env` becomes a structure
of optional strings, promise resolution/rejection and thrown errors
become `Except`, and the platform builtins the file relies on
(`JSON.stringify` with a replacer and a tab gap, `JSON.parse`,
`String.prototype.replace`, regular-expression tests) are modelled as
executable Lean functions on these types.
-/

/-! ## JSON values

JavaScript data handled by the utility file is JSON-shaped: `null`,
booleans, numbers (embedded as integers: every number the file
manipulates is integral), strings, arrays and objects. Objects are
modelled as ordered field lists, the order being the object's property
enumeration order. The three types are mutually inductive so that all
recursion over documents is structural. -/

mutual

inductive Json where
  | null
  | bool (b : Bool)
  | num (n : Int)
  | str (s : String)
  | arr (elts : JsonList)
  | obj (fields : JsonFields)
deriving DecidableEq, Repr

inductive JsonList where
  | nil
  | cons (hd : Json) (tl : JsonList)
deriving DecidableEq, Repr

inductive JsonFields where
  | nil
  | cons (key : String) (val : Json) (tl : JsonFields)
deriving DecidableEq, Repr

end

/-- Keys of an object's field list, in order. -/
def fkeys : JsonFields → List String
  | .nil => []
  | .cons k _ fs => k :: fkeys fs

/-- Property lookup on an object: the first field with the given key,
as in a JavaScript property read (objects hold no duplicate keys). -/
def flookup : JsonFields → String → Option Json
  | .nil, _ => none
  | .cons k v fs, key => if k = key then some v else flookup fs key

/-- Concatenation of field lists. -/
def fappend : JsonFields → JsonFields → JsonFields
  | .nil, ys => ys
  | .cons k v fs, ys => .cons k v (fappend fs ys)

/-- The empty JSON object `{}`. -/
def emptyObj : Json := .obj .nil

/-- Duplicate-freedom of a key list. -/
def nodupL : List String → Bool
  | [] => true
  | k :: ks => !ks.contains k && nodupL ks

/-- Keys of a field list contain no duplicates. -/
def nodupKeys : JsonFields → Bool
  | .nil => true
  | .cons k _ fs => !(fkeys fs).contains k && nodupKeys fs

/-- JavaScript property definition, as performed for each member by
`JSON.parse`: overwrite the value in place when the key is already
present, append the field otherwise. -/
def defineProp : JsonFields → String → Json → JsonFields
  | .nil, key, v => .cons key v .nil
  | .cons k w fs, key, v =>
      if k = key then .cons k v fs else .cons k w (defineProp fs key v)

/-- Fold `defineProp` over parsed members in textual order: the object
`JSON.parse` builds, with later duplicate keys overwriting earlier ones. -/
def buildObjAux (acc : JsonFields) : JsonFields → JsonFields
  | .nil => acc
  | .cons k v fs => buildObjAux (defineProp acc k v) fs

/-- Object construction from the raw member list of a JSON text. -/
def buildObj (raw : JsonFields) : JsonFields := buildObjAux .nil raw

/-! ## Characters and digits -/

/-- JSON whitespace: space, horizontal tab, line feed, carriage return. -/
def isJWs (c : Char) : Bool := c = ' ' || c = '\t' || c = '\n' || c = '\r'

/-- Decimal digit test, on code points. -/
def isDigitC (c : Char) : Bool := 48 ≤ c.toNat && c.toNat ≤ 57

/-- Value of a decimal digit character. -/
def dval (c : Char) : Nat := c.toNat - 48

/-- Decimal digit character for a value below ten. -/
def digitCh (d : Nat) : Char := Char.ofNat (48 + d)

/-- Lowercase hexadecimal digit character for a value below sixteen. -/
def hexCh (d : Nat) : Char := if d < 10 then Char.ofNat (48 + d) else Char.ofNat (87 + d)

/-- Value of a hexadecimal digit character, either case, on code points. -/
def hexVal (c : Char) : Option Nat :=
  if 48 ≤ c.toNat && c.toNat ≤ 57 then some (c.toNat - 48)
  else if 97 ≤ c.toNat && c.toNat ≤ 102 then some (c.toNat - 87)
  else if 65 ≤ c.toNat && c.toNat ≤ 70 then some (c.toNat - 55)
  else none

/-- Decimal digit characters of a natural number, most significant first,
as JavaScript renders an integral number. -/
def natChars (n : Nat) : List Char :=
  if _h : n < 10 then [digitCh n]
  else natChars (n / 10) ++ [digitCh (n % 10)]
decreasing_by exact Nat.div_lt_self (by omega) (by omega)

/-- Decimal character rendering of an integer, a leading minus sign for
negatives, as JavaScript and ethers `BigNumber.toString` render one. -/
def intChars (n : Int) : List Char :=
  if n < 0 then '-' :: natChars n.natAbs else natChars n.toNat

/-- Decimal string of an integer. -/
def intRepr (n : Int) : String := ⟨intChars n⟩

/-! ## String escaping

`JSON.stringify` quotes a string by escaping the double quote, the
backslash, the named control characters and every other control
character as a lowercase `\u00xx` sequence; all other characters are
emitted literally. -/

/-- Escape of one character inside a JSON string literal. -/
def escChar (c : Char) : List Char :=
  if c = '"' then ['\\', '"']
  else if c = '\\' then ['\\', '\\']
  else if c.toNat = 8 then ['\\', 'b']
  else if c.toNat = 9 then ['\\', 't']
  else if c.toNat = 10 then ['\\', 'n']
  else if c.toNat = 12 then ['\\', 'f']
  else if c.toNat = 13 then ['\\', 'r']
  else if c.toNat < 32 then
    ['\\', 'u', '0', '0', hexCh (c.toNat / 16), hexCh (c.toNat % 16)]
  else [c]

/-- Escape of every character of a string body. -/
def escList : List Char → List Char
  | [] => []
  | c :: cs => escChar c ++ escList cs

/-- A quoted JSON string literal. -/
def serStrLit (s : String) : List Char := '"' :: (escList s.data ++ ['"'])

/-- Indentation at nesting depth `d` under the tab gap. -/
def indentChars (d : Nat) : List Char := List.replicate d '\t'

/-! ## Serialization

The rendering of `JSON.stringify(·, ·, '\t')`: scalars as their
tokens, a nonempty array or object opens its bracket, then each entry
on its own line indented one level deeper, then the closing bracket on
a line indented at the enclosing level. -/

mutual

/-- Serialization of a value at nesting depth `d`. -/
def serJ (d : Nat) : Json → List Char
  | .null => 'n' :: ['u', 'l', 'l']
  | .bool true => ['t', 'r', 'u', 'e']
  | .bool false => 'f' :: ['a', 'l', 's', 'e']
  | .num n => intChars n
  | .str s => serStrLit s
  | .arr .nil => ['[', ']']
  | .arr (.cons x xs) =>
      '[' :: '\n' :: (indentChars (d + 1) ++ (serJ (d + 1) x ++ serArrTailC d xs))
  | .obj .nil => ['{', '}']
  | .obj (.cons k v fs) =>
      '{' :: '\n' :: (indentChars (d + 1) ++
        ((serStrLit k ++ (':' :: ' ' :: serJ (d + 1) v)) ++ serObjTailC d fs))

/-- Serialization of the remaining array elements after the first, then
the closing bracket at depth `d`. -/
def serArrTailC (d : Nat) : JsonList → List Char
  | .nil => '\n' :: (indentChars d ++ [']'])
  | .cons y ys =>
      ',' :: '\n' :: (indentChars (d + 1) ++ (serJ (d + 1) y ++ serArrTailC d ys))

/-- Serialization of the remaining object members after the first, then
the closing brace at depth `d`. -/
def serObjTailC (d : Nat) : JsonFields → List Char
  | .nil => '\n' :: (indentChars d ++ ['}'])
  | .cons k v fs =>
      ',' :: '\n' :: (indentChars (d + 1) ++
        ((serStrLit k ++ (':' :: ' ' :: serJ (d + 1) v)) ++ serObjTailC d fs))

end

/-- Serialization of one object member: quoted key, colon, space, value. -/
def serKV (d : Nat) (k : String) (v : Json) : List Char :=
  serStrLit k ++ (':' :: ' ' :: serJ d v)

/-! ## BigNumber-shaped values and the replacer

`util.js` serializes with a replacer that turns any non-array object
whose `type` property is the string `"BigNumber"` into its decimal
string, via ethers `BigNumber.from(value).toString()`. ethers accepts
such an object when its `_hex` property (or, when that is null or
absent, its `hex` property) is a hex string `0x…` or `-0x…`. -/

/-- Value of a run of hexadecimal digit characters, most significant
first, accumulated from `acc`; `none` on a non-hex character. -/
def hexAcc (acc : Nat) : List Char → Option Nat
  | [] => some acc
  | c :: cs =>
    match hexVal c with
    | some d => hexAcc (acc * 16 + d) cs
    | none => none

/-- Integer denoted by an ethers hex string: `0x…` or `-0x…` over hex
digits, `none` on any other shape. -/
def hexStrVal (h : String) : Option Int :=
  match h.data with
  | '-' :: '0' :: 'x' :: ds => (fun n => -(n : Int)) <$> hexAcc 0 ds
  | '0' :: 'x' :: ds => (fun n => (n : Int)) <$> hexAcc 0 ds
  | _ => none

/-- A field list is BigNumber-shaped when its `type` property reads the
string `"BigNumber"` (the replacer's test on a non-array, non-null
object). -/
def isBNShapeF (fs : JsonFields) : Bool :=
  match flookup fs "type" with
  | some (.str s) => s = "BigNumber"
  | _ => false

/-- ethers `BigNumber.from` on a plain object: take `_hex`, falling back
to `hex` when `_hex` is null or absent, and require a hex string; any
other shape throws. -/
def bigNumberFromF (fs : JsonFields) : Except String Int :=
  let hx :=
    match flookup fs "_hex" with
    | none => flookup fs "hex"
    | some .null => flookup fs "hex"
    | some v => some v
  match hx with
  | some (.str h) =>
    match hexStrVal h with
    | some n => .ok n
    | none => .error "invalid BigNumber"
  | _ => .error "invalid BigNumber"

/-- The `JSONreplacer` of `util.js`: a BigNumber-shaped object becomes
its decimal string, every other value is returned unchanged. -/
def JSONreplacer (value : Json) : Except String Json :=
  match value with
  | .obj fs =>
      if isBNShapeF fs then (fun n => Json.str (intRepr n)) <$> bigNumberFromF fs
      else .ok (.obj fs)
  | v => .ok v

mutual

/-- Top-down application of `JSONreplacer` as `JSON.stringify` performs
it: the replacer maps a BigNumber-shaped object to a string, which is
not recursed into; any other array or object is rebuilt from its
transformed children. -/
def transformE : Json → Except String Json
  | .obj fs =>
      if isBNShapeF fs then (fun n => Json.str (intRepr n)) <$> bigNumberFromF fs
      else Json.obj <$> transformF fs
  | .arr xs => Json.arr <$> transformL xs
  | .null => .ok .null
  | .bool b => .ok (.bool b)
  | .num n => .ok (.num n)
  | .str s => .ok (.str s)

/-- Replacer transformation of each array element. -/
def transformL : JsonList → Except String JsonList
  | .nil => .ok .nil
  | .cons x xs => do
      let x2 ← transformE x
      let xs2 ← transformL xs
      .ok (.cons x2 xs2)

/-- Replacer transformation of each object member's value. -/
def transformF : JsonFields → Except String JsonFields
  | .nil => .ok .nil
  | .cons k v fs => do
      let v2 ← transformE v
      let fs2 ← transformF fs
      .ok (.cons k v2 fs2)

end

/-- Model of `JSON.stringify(input, JSONreplacer, '\t')`. -/
def JSONstringifyTab (input : Json) : Except String String :=
  (fun t => (⟨serJ 0 t⟩ : String)) <$> transformE input

/-- The `stringify` helper of `util.js`: tab-indented JSON through the
replacer, plus a trailing newline. -/
def stringify (input : Json) : Except String String :=
  (fun s => s ++ "\n") <$> JSONstringifyTab input

/-! ## Parsing

A model of `JSON.parse`, on character lists with a fuel argument
bounding nesting. Two deliberate model boundaries: numbers with a
fraction or exponent are rejected rather than read as floating point,
and a `\u` escape denoting a lone surrogate is rejected, since Lean
characters are Unicode scalar values. -/

/-- Drop leading JSON whitespace. -/
def skipWs : List Char → List Char
  | [] => []
  | c :: cs => if isJWs c then skipWs cs else c :: cs

/-- Character with the given code point, when it is a scalar value. -/
def charOfCode (n : Nat) : Option Char :=
  if h : n.isValidChar then some (Char.ofNatAux n h) else none

/-- Character denoted by a single-character escape in a JSON string. -/
def escCode (e : Char) : Option Char :=
  if e = '"' then some '"'
  else if e = '\\' then some '\\'
  else if e = '/' then some '/'
  else if e = 'b' then some (Char.ofNat 8)
  else if e = 'f' then some (Char.ofNat 12)
  else if e = 'n' then some '\n'
  else if e = 'r' then some (Char.ofNat 13)
  else if e = 't' then some '\t'
  else none

/-- One escape sequence after a backslash: either `u` and four hex
digits (with a following surrogate-pair escape when the first denotes a
high surrogate), or a single-character escape. Returns the denoted
character and the remaining input. -/
def readEsc : List Char → Option (Char × List Char)
  | [] => none
  | e :: cs =>
    if e = 'u' then
      match cs with
      | a :: b :: c2 :: d :: cs2 => do
          let va ← hexVal a
          let vb ← hexVal b
          let vc ← hexVal c2
          let vd ← hexVal d
          let n := va * 4096 + vb * 256 + vc * 16 + vd
          if n < 0xd800 || 0xdfff < n then do
            let ch ← charOfCode n
            some (ch, cs2)
          else if n < 0xdc00 then
            match cs2 with
            | '\\' :: 'u' :: a2 :: b2 :: c3 :: d2 :: cs3 => do
                let wa ← hexVal a2
                let wb ← hexVal b2
                let wc ← hexVal c3
                let wd ← hexVal d2
                let m := wa * 4096 + wb * 256 + wc * 16 + wd
                if 0xdc00 ≤ m && m ≤ 0xdfff then do
                  let ch ← charOfCode (0x10000 + (n - 0xd800) * 1024 + (m - 0xdc00))
                  some (ch, cs3)
                else none
            | _ => none
          else none
      | _ => none
    else do
      let ch ← escCode e
      some (ch, cs)

/-- Body of a JSON string literal after its opening quote: unescape up
to the closing quote, returning the body and the remaining input. The
fuel argument bounds the number of decoded characters; callers pass the
input length, which the scan cannot exceed. -/
def parseStrChars : Nat → List Char → Option (List Char × List Char)
  | 0, _ => none
  | _ + 1, [] => none
  | f + 1, c :: cs =>
    if c = '"' then some ([], cs)
    else if c = '\\' then
      match readEsc cs with
      | some (ch, cs2) =>
          match parseStrChars f cs2 with
          | some (tl, cs3) => some (ch :: tl, cs3)
          | none => none
      | none => none
    else if c.toNat < 32 then none
    else
      match parseStrChars f cs with
      | some (tl, cs2) => some (c :: tl, cs2)
      | none => none

/-- Greedy run of decimal digits, folded onto an accumulator. -/
def parseDigitsA (acc : Nat) : List Char → Nat × List Char
  | [] => (acc, [])
  | c :: cs => if isDigitC c then parseDigitsA (acc * 10 + dval c) cs else (acc, c :: cs)

/-- After a number's digits, the input may not continue with another
digit, a decimal point or an exponent marker. -/
def numStop : List Char → Bool
  | [] => true
  | c :: _ => !(isDigitC c || c = '.' || c = 'e' || c = 'E')

/-- Unsigned JSON number: a single zero, or digits without a leading
zero; fractions and exponents are outside the model. -/
def parseNatNum : List Char → Option (Nat × List Char)
  | [] => none
  | c :: cs =>
    if c = '0' then
      if numStop cs then some (0, cs) else none
    else if isDigitC c then
      let (n, cs2) := parseDigitsA (dval c) cs
      if numStop cs2 then some (n, cs2) else none
    else none

/-- JSON number token, with an optional leading minus sign. -/
def parseNum : List Char → Option (Json × List Char)
  | [] => none
  | c :: cs =>
    if c = '-' then do
      let (n, cs2) ← parseNatNum cs
      some (Json.num (-(n : Int)), cs2)
    else do
      let (n, cs2) ← parseNatNum (c :: cs)
      some (Json.num (n : Int), cs2)

mutual

/-- JSON value parser: skip whitespace and dispatch on the first
character. The fuel argument bounds recursion depth. -/
def parseV : Nat → List Char → Option (Json × List Char)
  | 0, _ => none
  | f + 1, cs =>
    match skipWs cs with
    | [] => none
    | c :: cs1 =>
      if c = '"' then do
          let (body, cs2) ← parseStrChars (cs1.length + 1) cs1
          some (.str ⟨body⟩, cs2)
      else if c = '[' then
        match skipWs cs1 with
        | [] => none
        | c2 :: cs2 =>
          if c2 = ']' then some (.arr .nil, cs2)
          else do
            let (x, cs3) ← parseV f (c2 :: cs2)
            let (xs, cs4) ← parseArrTail f cs3
            some (.arr (.cons x xs), cs4)
      else if c = '{' then
        match skipWs cs1 with
        | [] => none
        | c2 :: cs2 =>
          if c2 = '}' then some (.obj .nil, cs2)
          else do
            let (k, v, cs3) ← parseMember f (c2 :: cs2)
            let (ms, cs4) ← parseObjTail f cs3
            some (.obj (buildObj (.cons k v ms)), cs4)
      else if c = 'n' then
        match cs1 with
        | 'u' :: 'l' :: 'l' :: cs2 => some (.null, cs2)
        | _ => none
      else if c = 't' then
        match cs1 with
        | 'r' :: 'u' :: 'e' :: cs2 => some (.bool true, cs2)
        | _ => none
      else if c = 'f' then
        match cs1 with
        | 'a' :: 'l' :: 's' :: 'e' :: cs2 => some (.bool false, cs2)
        | _ => none
      else if isDigitC c || c = '-' then parseNum (c :: cs1)
      else none

/-- One object member: quoted key, colon, value. -/
def parseMember : Nat → List Char → Option (String × Json × List Char)
  | 0, _ => none
  | f + 1, cs =>
    match skipWs cs with
    | [] => none
    | c :: cs1 =>
      if c = '"' then do
        let (k, cs2) ← parseStrChars (cs1.length + 1) cs1
        match skipWs cs2 with
        | [] => none
        | c2 :: cs3 =>
          if c2 = ':' then do
            let (v, cs4) ← parseV f cs3
            some (⟨k⟩, v, cs4)
          else none
      else none

/-- Array elements after the first: a comma and an element, repeated,
then the closing bracket. -/
def parseArrTail : Nat → List Char → Option (JsonList × List Char)
  | 0, _ => none
  | f + 1, cs =>
    match skipWs cs with
    | [] => none
    | c :: cs1 =>
      if c = ']' then some (.nil, cs1)
      else if c = ',' then do
        let (x, cs2) ← parseV f cs1
        let (xs, cs3) ← parseArrTail f cs2
        some (.cons x xs, cs3)
      else none

/-- Object members after the first: a comma and a member, repeated,
then the closing brace. -/
def parseObjTail : Nat → List Char → Option (JsonFields × List Char)
  | 0, _ => none
  | f + 1, cs =>
    match skipWs cs with
    | [] => none
    | c :: cs1 =>
      if c = '}' then some (.nil, cs1)
      else if c = ',' then do
        let (k, v, cs2) ← parseMember f cs1
        let (ms, cs3) ← parseObjTail f cs2
        some (.cons k v ms, cs3)
      else none

end

/-- Model of `JSON.parse`: parse one value with fuel ample for the
input's length, then require only whitespace to remain. -/
def jsonParse (s : String) : Option Json :=
  match parseV (s.data.length + 1) s.data with
  | some (v, rest) => if skipWs rest = [] then some v else none
  | none => none

/-! Fuel sufficient for the parser on a value's serialization: one unit
per parser call along the deepest call chain. -/
mutual

def fuelJ : Json → Nat
  | .null => 1
  | .bool _ => 1
  | .num _ => 1
  | .str _ => 1
  | .arr .nil => 1
  | .arr (.cons x xs) => 1 + max (fuelJ x) (fuelL xs)
  | .obj .nil => 1
  | .obj (.cons _ v fs) => 1 + max (1 + fuelJ v) (fuelF fs)

def fuelL : JsonList → Nat
  | .nil => 1
  | .cons x xs => 1 + max (fuelJ x) (fuelL xs)

def fuelF : JsonFields → Nat
  | .nil => 1
  | .cons _ v fs => 1 + max (1 + fuelJ v) (fuelF fs)

end

/-! Recursively, every object of the document has duplicate-free keys. -/
mutual

def keysOk : Json → Bool
  | .obj fs => nodupKeys fs && keysOkF fs
  | .arr xs => keysOkL xs
  | _ => true

def keysOkL : JsonList → Bool
  | .nil => true
  | .cons x xs => keysOk x && keysOkL xs

def keysOkF : JsonFields → Bool
  | .nil => true
  | .cons _ v fs => keysOk v && keysOkF fs

end

/-- Success test for an exception-carrying computation. -/
def eIsOk {ε α : Type} : Except ε α → Bool
  | .ok _ => true
  | .error _ => false

/-! A well-formed document for serialization: every BigNumber-shaped
object carries a valid hex payload, and every other object has
duplicate-free keys. -/
mutual

def goodJ : Json → Bool
  | .obj fs =>
      if isBNShapeF fs then eIsOk (bigNumberFromF fs)
      else nodupKeys fs && goodF fs
  | .arr xs => goodL xs
  | _ => true

def goodL : JsonList → Bool
  | .nil => true
  | .cons x xs => goodJ x && goodL xs

def goodF : JsonFields → Bool
  | .nil => true
  | .cons _ v fs => goodJ v && goodF fs

end

/-! ## The utility module

Models of the functions of `src/publish/src/util.js`. Thrown JavaScript
errors and rejected promises are `Except.error`; `process.env` is a
structure of optional strings; the filesystem is an association list
from file names to file contents. -/

/-- A JavaScript `Error` object, identified by its message. -/
structure JsError where
  message : String
deriving DecidableEq, Repr

/-- Modelled from the spec: the fixed allow-list of known network
identifiers exported by the package root (`networks`), which lives
outside this source file; the spec names `local`, `goerli` and
`mainnet` as its members. -/
def networks : List String := ["local", "goerli", "mainnet"]

/-- The `ensureNetwork` helper: throw unless the network name is in the
allow-list, naming the invalid input and the allowed set. -/
def ensureNetwork (network : String) : Except JsError Unit :=
  if !(networks.contains network) then
    .error ⟨"Invalid network name of \"" ++ network ++ "\" supplied. Must be one of " ++
      String.intercalate ", " networks ++ "."⟩
  else .ok ()

/-- The `allowZeroOrUpdateIfNonZero` helper, a curried predicate. -/
def allowZeroOrUpdateIfNonZero (param : String) : String → Bool :=
  fun input => param == "0" || input != "0"

/-- The `getExplorerLinkPrefix` helper. -/
def getExplorerLinkPrefix (network : String) (useOvm : Bool) : String :=
  "https://" ++
    (if network ≠ "mainnet" then network ++ (if useOvm then "-" else ".") else "") ++
    (if useOvm then "explorer.optimism" else "etherscan") ++ ".io"

/-- The environment variables `loadConnections` reads. An absent
variable is `none`; JavaScript truthiness also treats the empty string
as unset. -/
structure Env where
  OVM_PROVIDER_URL : Option String
  OVM_GOERLI_PROVIDER_URL : Option String
  PROVIDER_URL_MAINNET : Option String
  PROVIDER_URL : Option String
  DEPLOY_PRIVATE_KEY : Option String
  TESTNET_DEPLOY_PRIVATE_KEY : Option String
deriving DecidableEq, Repr

/-- The environment with every variable unset. -/
def emptyEnv : Env := ⟨none, none, none, none, none, none⟩

/-- JavaScript truthiness of an environment variable read: set and
nonempty. -/
def envTruthy : Option String → Bool
  | some s => s ≠ ""
  | none => false

/-- First-occurrence substring replacement, as
`String.prototype.replace` performs with a string pattern. -/
def replaceFirstChars (pat repl : List Char) : List Char → List Char
  | [] => if List.isPrefixOf pat [] then repl else []
  | c :: cs =>
      if List.isPrefixOf pat (c :: cs) then repl ++ (c :: cs).drop pat.length
      else c :: replaceFirstChars pat repl cs

/-- `String.prototype.replace` with a plain-string pattern: replace the
first occurrence only. -/
def jsReplace (s pat repl : String) : String := ⟨replaceFirstChars pat.data repl.data s.data⟩

/-- The connection parameters `loadConnections` derives. -/
structure Connections where
  providerUrl : Option String
  privateKey : Option String
  etherscanUrl : String
  explorerLinkPrefix : String
deriving DecidableEq, Repr

/-- The `loadConnections` helper. The one fallible step is the generic
non-OVM fallback, which calls `.replace` on `process.env.PROVIDER_URL`
and therefore throws a `TypeError` when that variable is unset. -/
def loadConnections (env : Env) (network : String) (useFork useOvm : Bool) :
    Except JsError Connections := do
  let providerUrl ←
    if network == "local" || useFork then pure (some "http://127.0.0.1:8545")
    else
      if useOvm then
        if network == "mainnet" && envTruthy env.OVM_PROVIDER_URL then
          pure env.OVM_PROVIDER_URL
        else if envTruthy env.OVM_GOERLI_PROVIDER_URL then
          pure env.OVM_GOERLI_PROVIDER_URL
        else pure none
      else
        if network == "mainnet" && envTruthy env.PROVIDER_URL_MAINNET then
          pure env.PROVIDER_URL_MAINNET
        else
          match env.PROVIDER_URL with
          | none =>
              .error ⟨"TypeError: Cannot read properties of undefined reading replace"⟩
          | some u => pure (some (jsReplace u "network" network))
  let privateKey :=
    if network == "mainnet" then env.DEPLOY_PRIVATE_KEY
    else env.TESTNET_DEPLOY_PRIVATE_KEY
  let etherscanUrl :=
    "https://api" ++ (if network ≠ "mainnet" then "-" ++ network else "") ++
      (if useOvm then "-optimistic" else "") ++ ".etherscan.io/api"
  let explorerLinkPrefix := getExplorerLinkPrefix network useOvm
  pure { providerUrl, privateKey, etherscanUrl, explorerLinkPrefix }

/-- The regular expression test `/y|Y/.test(answer)`: the answer
contains a `y` or a `Y` anywhere. -/
def regexYorY (answer : String) : Bool :=
  answer.data.any (fun c => c = 'y' || c = 'Y')

/-- The `confirmAction` helper, as a function of the line the user
answers to the prompt: the promise resolves when the answer passes
`/y|Y/`, and otherwise rejects with `Not confirmed`. -/
def confirmAction (answer : String) : Except JsError Unit :=
  if regexYorY answer then .ok () else .error ⟨"Not confirmed"⟩

/-- JavaScript regular-expression class `\s`. -/
def isJsSpace (c : Char) : Bool :=
  c.toNat = 32 || (9 ≤ c.toNat && c.toNat ≤ 13) || c.toNat = 0xa0 ||
    c.toNat = 0x1680 || (0x2000 ≤ c.toNat && c.toNat ≤ 0x200a) ||
    c.toNat = 0x2028 || c.toNat = 0x2029 || c.toNat = 0x202f ||
    c.toNat = 0x205f || c.toNat = 0x3000 || c.toNat = 0xfeff

/-- JavaScript regular-expression class `\w`. -/
def isWordChar (c : Char) : Bool :=
  (48 ≤ c.toNat && c.toNat ≤ 57) || (65 ≤ c.toNat && c.toNat ≤ 90) ||
    (97 ≤ c.toNat && c.toNat ≤ 122) || c.toNat = 95

/-- Match of `/Missing address:\s[\w]+/` anchored at the head of the
list: the literal text, one whitespace, at least one word character. -/
def missingAddrAt (l : List Char) : Bool :=
  if List.isPrefixOf ("Missing address:".data) l then
    match l.drop ("Missing address:".data).length with
    | w :: c2 :: _ => isJsSpace w && isWordChar c2
    | _ => false
  else false

/-- Unanchored scan for `/Missing address:\s[\w]+/`. -/
def missingAddrScan : List Char → Bool
  | [] => false
  | c :: cs => missingAddrAt (c :: cs) || missingAddrScan cs

/-- The test `/Missing address:\s[\w]+/.test(message)`. -/
def missingAddrTest (s : String) : Bool := missingAddrScan s.data

/-- Occurrence of `sub` anywhere in a character list. -/
def containsSubChars (sub : List Char) : List Char → Bool
  | [] => List.isPrefixOf sub []
  | c :: cs => List.isPrefixOf sub (c :: cs) || containsSubChars sub cs

/-- Occurrence of `sub` anywhere in `s`. -/
def strContainsSub (s sub : String) : Bool := containsSubChars sub.data s.data

/-- The `catchMissingResolverWhenGeneratingSolidity` helper: swallow
the error (after logging) exactly when in solidity-generation or
dry-run mode and the message matches the pattern; otherwise re-throw
the same error. -/
def catchMissingResolverWhenGeneratingSolidity (contract : String) (dryRun : Bool)
    (err : JsError) (generateSolidity : Bool) : Except JsError Unit :=
  if (generateSolidity || dryRun) && missingAddrTest err.message then .ok ()
  else .error err

/-- Fee data reported by the chain provider; only the field the code
inspects. A present `maxFeePerGas` is a BigNumber and is truthy even
when zero. -/
structure FeeData where
  maxFeePerGas : Option Int
deriving DecidableEq, Repr

/-- A transaction object: the three gas fields the code may add, plus
its other properties, which the code never touches. -/
structure Tx where
  type : Option Int
  maxFeePerGas : Option Int
  maxPriorityFeePerGas : Option Int
  other : List (String × Json)
deriving DecidableEq, Repr

/-- The `gasOptions` accumulator of `assignGasOptions`. -/
structure GasOptions where
  type : Option Int
  maxFeePerGas : Option Int
  maxPriorityFeePerGas : Option Int
deriving DecidableEq, Repr

/-- Leading run of decimal digit characters. -/
def takeDigits : List Char → (List Char × List Char)
  | [] => ([], [])
  | c :: cs =>
      if isDigitC c then
        let (d, r) := takeDigits cs
        (c :: d, r)
      else ([], c :: cs)

/-- Value of a digit run. -/
def digitsVal (l : List Char) : Nat := l.foldl (fun a c => a * 10 + dval c) 0

/-- ethers `parseUnits(value, 'gwei')` on an unsigned decimal string:
whole digits, an optional fraction of at most nine digits, scaled to
wei. -/
def parseUnitsGweiNat (cs : List Char) : Except JsError Int :=
  let (whole, rest) := takeDigits cs
  match rest with
  | [] =>
      if whole.isEmpty then .error ⟨"invalid decimal value"⟩
      else .ok ((digitsVal whole : Int) * 1000000000)
  | '.' :: frac =>
      let (fd, rest2) := takeDigits frac
      if !rest2.isEmpty then .error ⟨"invalid decimal value"⟩
      else if 9 < fd.length then .error ⟨"fractional component exceeds decimals"⟩
      else if whole.isEmpty && fd.isEmpty then .error ⟨"invalid decimal value"⟩
      else .ok ((digitsVal whole : Int) * 1000000000 +
        (digitsVal fd : Int) * 10 ^ (9 - fd.length))
  | _ => .error ⟨"invalid decimal value"⟩

/-- ethers `parseUnits(value, 'gwei')`, with an optional sign. -/
def parseUnitsGwei (s : String) : Except JsError Int :=
  match s.data with
  | '-' :: cs => (fun n => -n) <$> parseUnitsGweiNat cs
  | cs => parseUnitsGweiNat cs

/-- The string a defined CLI value serializes to: itself. The code only
calls this behind a truthiness guard. -/
def optToString : Option String → String
  | some s => s
  | none => ""

/-- JavaScript `a || b` on strings: the default wins only on the empty
string. -/
def jsOrDefault (s d : String) : String := if s = "" then d else s

/-- `Object.assign(gasOptions, tx)`: the transaction's own fields
overwrite the computed gas fields; everything else comes from the
transaction alone. -/
def objectAssignTx (gasOptions : GasOptions) (tx : Tx) : Tx :=
  { type := match tx.type with | some t => some t | none => gasOptions.type,
    maxFeePerGas :=
      match tx.maxFeePerGas with | some t => some t | none => gasOptions.maxFeePerGas,
    maxPriorityFeePerGas :=
      match tx.maxPriorityFeePerGas with
      | some t => some t
      | none => gasOptions.maxPriorityFeePerGas,
    other := tx.other }

/-- The `assignGasOptions` helper. The provider query result is passed
in: a throwing `getFeeData` leaves the fee data empty, so no gas
options are added. -/
def assignGasOptions (tx : Tx) (feeDataRes : Except JsError FeeData)
    (maxFeePerGas maxPriorityFeePerGas : Option String) : Except JsError Tx := do
  let feeData : FeeData :=
    match feeDataRes with
    | .ok fd => fd
    | .error _ => { maxFeePerGas := none }
  let gasOptions : GasOptions :=
    { type := none, maxFeePerGas := none, maxPriorityFeePerGas := none }
  let gasOptions ←
    if feeData.maxFeePerGas.isSome then do
      let g := { gasOptions with type := some 2 }
      let g ←
        if envTruthy maxFeePerGas then do
          let v ← parseUnitsGwei (jsOrDefault (optToString maxFeePerGas) "100")
          pure { g with maxFeePerGas := some v }
        else pure g
      let g ←
        if envTruthy maxPriorityFeePerGas then do
          let v ← parseUnitsGwei (optToString maxPriorityFeePerGas)
          pure { g with maxPriorityFeePerGas := some v }
        else pure g
      pure g
    else pure gasOptions
  pure (objectAssignTx gasOptions tx)

/-! ## Filesystem and the bulk loader -/

/-- The filesystem: file names to file contents. -/
abbrev FS := List (String × String)

/-- `fs.existsSync`. -/
def existsSync (fs : FS) (name : String) : Bool := (fs.lookup name).isSome

/-- `fs.readFileSync`, throwing on a missing file. -/
def readFileSync (fs : FS) (name : String) : Except JsError String :=
  match fs.lookup name with
  | some content => .ok content
  | none => .error ⟨"ENOENT: no such file or directory, open " ++ name⟩

/-- `fs.writeFileSync`: overwrite or create. -/
def writeFileSync (fs : FS) (name content : String) : FS :=
  if (fs.lookup name).isSome then
    fs.map (fun p => if p.1 = name then (name, content) else p)
  else fs ++ [(name, content)]

/-- `JSON.parse`, throwing a syntax error on failure. -/
def JSONparse (s : String) : Except JsError Json :=
  match jsonParse s with
  | some j => .ok j
  | none => .error ⟨"SyntaxError: Unexpected token in JSON"⟩

/-- Read and parse one JSON file: `JSON.parse(fs.readFileSync(name))`. -/
def readJSON (fs : FS) (name : String) : Except JsError Json := do
  JSONparse (← readFileSync fs name)

/-- The `stringify` helper with its BigNumber failure surfaced as a
JavaScript error. -/
def stringifyE (j : Json) : Except JsError String :=
  match stringify j with
  | .ok s => .ok s
  | .error m => .error ⟨m⟩

/-- Modelled from the spec: the file-name constant for the contract
configuration file, imported from the package root. -/
def CONFIG_FILENAME : String := "config.json"

/-- Modelled from the spec: the file-name constant for the deployment
parameters file, imported from the package root. -/
def PARAMS_FILENAME : String := "params.json"

/-- Modelled from the spec: the file-name constant for the deployment
record, imported from the package root. -/
def DEPLOYMENT_FILENAME : String := "deployment.json"

/-- Modelled from the spec: the file-name constant for the owner-action
ledger, imported from the package root. -/
def OWNER_ACTIONS_FILENAME : String := "owner-actions.json"

/-- Modelled from the spec: the file-name constant for the synth list,
imported from the package root. -/
def SYNTHS_FILENAME : String := "synths.json"

/-- Modelled from the spec: the file-name constant for the staking
rewards list, imported from the package root. -/
def STAKING_REWARDS_FILENAME : String := "rewards.json"

/-- Modelled from the spec: the file-name constant for the shorting
rewards list, imported from the package root. -/
def SHORTING_REWARDS_FILENAME : String := "shorting-rewards.json"

/-- Modelled from the spec: the file-name constant for the versions
file, imported from the package root. -/
def VERSIONS_FILENAME : String := "versions.json"

/-- Modelled from the spec: the file-name constant for the feeds file,
imported from the package root. -/
def FEEDS_FILENAME : String := "feeds.json"

/-- Modelled from the spec: the file-name constant for the futures
markets file, imported from the package root. -/
def FUTURES_MARKETS_FILENAME : String := "futures-markets.json"

/-- `path.join` of a directory and a file name. -/
def pathJoin (a b : String) : String := a ++ "/" ++ b

/-- Modelled from the spec: `getSynths` from the package root wrapper,
which reads the synth list JSON file under the deployment path; the
file must already exist or the read fails, and a malformed file fails
with a JSON-parse error. -/
def getSynths (fs : FS) (deploymentPath : String) : Except JsError Json :=
  readJSON fs (pathJoin deploymentPath SYNTHS_FILENAME)

/-- Modelled from the spec: `getStakingRewards` from the package root
wrapper, reading the staking rewards JSON file under the deployment
path, failing when absent or malformed. -/
def getStakingRewards (fs : FS) (deploymentPath : String) : Except JsError Json :=
  readJSON fs (pathJoin deploymentPath STAKING_REWARDS_FILENAME)

/-- Modelled from the spec: `getShortingRewards` from the package root
wrapper, reading the shorting rewards JSON file under the deployment
path, failing when absent or malformed. -/
def getShortingRewards (fs : FS) (deploymentPath : String) : Except JsError Json :=
  readJSON fs (pathJoin deploymentPath SHORTING_REWARDS_FILENAME)

/-- Modelled from the spec: `getVersions` from the package root
wrapper, reading the versions JSON file under the deployment path,
failing when absent or malformed. -/
def getVersions (fs : FS) (deploymentPath : String) : Except JsError Json :=
  readJSON fs (pathJoin deploymentPath VERSIONS_FILENAME)

/-- Modelled from the spec: `getFeeds` from the package root wrapper,
reading the feeds JSON file under the deployment path, failing when
absent or malformed. -/
def getFeeds (fs : FS) (deploymentPath : String) : Except JsError Json :=
  readJSON fs (pathJoin deploymentPath FEEDS_FILENAME)

/-- The aggregate object `loadAndCheckRequiredSources` returns, with
the same fields as the source's return statement. -/
structure LoadedSources where
  config : Json
  params : Json
  configFile : String
  synths : Json
  synthsFile : String
  stakingRewards : Json
  stakingRewardsFile : String
  futuresMarkets : Json
  futuresMarketsFile : String
  deployment : Json
  deploymentFile : String
  ownerActions : Json
  ownerActionsFile : String
  versions : Json
  versionsFile : String
  feeds : Json
  feedsFile : String
  shortingRewards : Json
  shortingRewardsFile : String
deriving DecidableEq, Repr

/-- Strict-mode JavaScript property assignment `j[key] = v`: update an
object in place, throw a `TypeError` on `null` or a primitive. On an
array JavaScript would attach a non-index expando property, which a
JSON-level view cannot hold: the array is returned unchanged. -/
def jsAssignField (j : Json) (key : String) (v : Json) : Except JsError Json :=
  match j with
  | .obj fs => .ok (.obj (defineProp fs key v))
  | .arr xs => .ok (.arr xs)
  | _ => .error ⟨"TypeError: Cannot create property " ++ key ++ " on primitive or null"⟩

/-- The default deployment record written when the file is absent. -/
def defaultDeployment : Json :=
  .obj (.cons "targets" (.obj .nil) (.cons "sources" (.obj .nil) .nil))

/-- The `loadAndCheckRequiredSources` helper: read the nine input
files in source order, creating the deployment record and owner-action
ledger with default contents when absent, and clearing the deployment
targets and sources on a fresh deploy. Returns the aggregate and the
filesystem after any default-file writes. -/
def loadAndCheckRequiredSources (fs : FS) (deploymentPath network : String)
    (freshDeploy : Bool) : Except JsError (LoadedSources × FS) := do
  let synthsFile := pathJoin deploymentPath SYNTHS_FILENAME
  let synths ← getSynths fs deploymentPath
  let stakingRewardsFile := pathJoin deploymentPath STAKING_REWARDS_FILENAME
  let stakingRewards ← getStakingRewards fs deploymentPath
  let shortingRewardsFile := pathJoin deploymentPath SHORTING_REWARDS_FILENAME
  let shortingRewards ← getShortingRewards fs deploymentPath
  let configFile := pathJoin deploymentPath CONFIG_FILENAME
  let config ← readJSON fs configFile
  let paramsFile := pathJoin deploymentPath PARAMS_FILENAME
  let params ← readJSON fs paramsFile
  let futuresMarketsFile := pathJoin deploymentPath FUTURES_MARKETS_FILENAME
  let futuresMarkets ← readJSON fs futuresMarketsFile
  let versionsFile := pathJoin deploymentPath VERSIONS_FILENAME
  let versions ←
    if network ≠ "local" then getVersions fs deploymentPath
    else pure (Json.obj .nil)
  let feedsFile := pathJoin deploymentPath FEEDS_FILENAME
  let feeds ← getFeeds fs deploymentPath
  let deploymentFile := pathJoin deploymentPath DEPLOYMENT_FILENAME
  let fs1 ←
    if existsSync fs deploymentFile then pure fs
    else do
      let text ← stringifyE defaultDeployment
      pure (writeFileSync fs deploymentFile text)
  let deployment0 ← readJSON fs1 deploymentFile
  let deployment ←
    if freshDeploy then do
      let d1 ← jsAssignField deployment0 "targets" (.obj .nil)
      jsAssignField d1 "sources" (.obj .nil)
    else pure deployment0
  let ownerActionsFile := pathJoin deploymentPath OWNER_ACTIONS_FILENAME
  let fs2 ←
    if existsSync fs1 ownerActionsFile then pure fs1
    else do
      let text ← stringifyE (Json.obj .nil)
      pure (writeFileSync fs1 ownerActionsFile text)
  let ownerActions ← readJSON fs2 ownerActionsFile
  let r : LoadedSources :=
    { config := config
      params := params
      configFile := configFile
      synths := synths
      synthsFile := synthsFile
      stakingRewards := stakingRewards
      stakingRewardsFile := stakingRewardsFile
      futuresMarkets := futuresMarkets
      futuresMarketsFile := futuresMarketsFile
      deployment := deployment
      deploymentFile := deploymentFile
      ownerActions := ownerActions
      ownerActionsFile := ownerActionsFile
      versions := versions
      versionsFile := versionsFile
      feeds := feeds
      feedsFile := feedsFile
      shortingRewards := shortingRewards
      shortingRewardsFile := shortingRewardsFile }
  pure (r, fs2)

/-- The tail of `loadAndCheckRequiredSources` from the deployment-record
handling onward, abstracted over the values already read; used to relate
two runs of the loader that differ only in `freshDeploy`. -/
def loadTail (fs : FS) (deploymentPath : String) (freshDeploy : Bool)
    (synths stakingRewards shortingRewards config params futuresMarkets
      versions feeds : Json) : Except JsError (LoadedSources × FS) := do
  let synthsFile := pathJoin deploymentPath SYNTHS_FILENAME
  let stakingRewardsFile := pathJoin deploymentPath STAKING_REWARDS_FILENAME
  let shortingRewardsFile := pathJoin deploymentPath SHORTING_REWARDS_FILENAME
  let configFile := pathJoin deploymentPath CONFIG_FILENAME
  let futuresMarketsFile := pathJoin deploymentPath FUTURES_MARKETS_FILENAME
  let versionsFile := pathJoin deploymentPath VERSIONS_FILENAME
  let feedsFile := pathJoin deploymentPath FEEDS_FILENAME
  let deploymentFile := pathJoin deploymentPath DEPLOYMENT_FILENAME
  let fs1 ←
    if existsSync fs deploymentFile then pure fs
    else do
      let text ← stringifyE defaultDeployment
      pure (writeFileSync fs deploymentFile text)
  let deployment0 ← readJSON fs1 deploymentFile
  let deployment ←
    if freshDeploy then do
      let d1 ← jsAssignField deployment0 "targets" (.obj .nil)
      jsAssignField d1 "sources" (.obj .nil)
    else pure deployment0
  let ownerActionsFile := pathJoin deploymentPath OWNER_ACTIONS_FILENAME
  let fs2 ←
    if existsSync fs1 ownerActionsFile then pure fs1
    else do
      let text ← stringifyE (Json.obj .nil)
      pure (writeFileSync fs1 ownerActionsFile text)
  let ownerActions ← readJSON fs2 ownerActionsFile
  let r : LoadedSources :=
    { config := config
      params := params
      configFile := configFile
      synths := synths
      synthsFile := synthsFile
      stakingRewards := stakingRewards
      stakingRewardsFile := stakingRewardsFile
      futuresMarkets := futuresMarkets
      futuresMarketsFile := futuresMarketsFile
      deployment := deployment
      deploymentFile := deploymentFile
      ownerActions := ownerActions
      ownerActionsFile := ownerActionsFile
      versions := versions
      versionsFile := versionsFile
      feeds := feeds
      feedsFile := feedsFile
      shortingRewards := shortingRewards
      shortingRewardsFile := shortingRewardsFile }
  pure (r, fs2)

/-- The input files that must already exist for a load to succeed, for
the given network: versions are only read off the local network. -/
def requiredInputFiles (network : String) : List String :=
  [SYNTHS_FILENAME, STAKING_REWARDS_FILENAME, SHORTING_REWARDS_FILENAME,
    CONFIG_FILENAME, PARAMS_FILENAME, FUTURES_MARKETS_FILENAME] ++
    (if network ≠ "local" then [VERSIONS_FILENAME] else []) ++ [FEEDS_FILENAME]

/-- A deployment directory used as a concrete example: every required
input file present with minimal valid JSON contents. -/
def inputFilesFS (dp : String) : FS :=
  [(pathJoin dp SYNTHS_FILENAME, "[]"),
   (pathJoin dp STAKING_REWARDS_FILENAME, "[]"),
   (pathJoin dp SHORTING_REWARDS_FILENAME, "[]"),
   (pathJoin dp CONFIG_FILENAME, "{}"),
   (pathJoin dp PARAMS_FILENAME, "{}"),
   (pathJoin dp FUTURES_MARKETS_FILENAME, "[]"),
   (pathJoin dp VERSIONS_FILENAME, "{}"),
   (pathJoin dp FEEDS_FILENAME, "{}")]

/-- A concrete deployment directory with every required input file and
the owner-action ledger present, the deployment record absent. -/
def oaPresentFS : FS :=
  inputFilesFS "deployed/mainnet" ++
    [(pathJoin "deployed/mainnet" OWNER_ACTIONS_FILENAME, "{}")]

/-- A concrete deployment directory whose deployment-record file holds
the JSON text `null`, with the owner-action ledger present. -/
def nullDeploymentFS : FS :=
  inputFilesFS "deployed/mainnet" ++
    [(pathJoin "deployed/mainnet" DEPLOYMENT_FILENAME, "null"),
     (pathJoin "deployed/mainnet" OWNER_ACTIONS_FILENAME, "{}")]

/-- A concrete owner-action ledger with one pending action whose data
payload is a BigNumber-shaped object (`0x63` is ninety-nine). -/
def exampleLedger : JsonFields :=
  .cons "ExampleAction"
    (.obj (.cons "target" (.str "0x0123")
      (.cons "action" (.str "setValue(uint256)")
        (.cons "complete" (.bool false)
          (.cons "data"
            (.obj (.cons "type" (.str "BigNumber") (.cons "hex" (.str "0x63") .nil)))
            .nil)))))
    .nil

/-! ## Round-trip: character-level lemmas -/

theorem ne_of_toNat_ne {c d : Char} (h : c.toNat ≠ d.toNat) : c ≠ d :=
  fun he => h (by rw [he])

theorem charEq_of_toNat {c d : Char} (h : c.toNat = d.toNat) : c = d := by
  apply Char.eq_of_val_eq
  apply UInt32.eq_of_toBitVec_eq
  apply BitVec.eq_of_toNat_eq
  exact h

theorem skipWs_append_of_ws (l r : List Char) (h : ∀ c ∈ l, isJWs c = true) :
    skipWs (l ++ r) = skipWs r := by
  induction l with
  | nil => rfl
  | cons c cs ih =>
      simp only [List.cons_append, skipWs, h c (by simp)]
      exact ih (fun x hx => h x (by simp [hx]))

theorem skipWs_cons_of_not {c : Char} (r : List Char) (h : isJWs c = false) :
    skipWs (c :: r) = c :: r := by
  simp [skipWs, h]

theorem indent_ws (d : Nat) : ∀ c ∈ indentChars d, isJWs c = true := by
  intro c hc
  simp only [indentChars, List.mem_replicate] at hc
  rw [hc.2]; decide

theorem hexVal_hexCh {d : Nat} (h : d < 16) : hexVal (hexCh d) = some d := by
  interval_cases d <;> decide

theorem charOfCode_toNat (c : Char) : charOfCode c.toNat = some c := by
  have hv : c.toNat.isValidChar := c.valid
  simp only [charOfCode, hv, dif_pos]
  exact congrArg some (Char.eq_of_val_eq rfl)

theorem readEsc_unicode (a b c2 d ch : Char) (va vb vc vd n : Nat)
    (tail : List Char)
    (ha : hexVal a = some va) (hb : hexVal b = some vb)
    (hc : hexVal c2 = some vc) (hd : hexVal d = some vd)
    (hn : n = va * 4096 + vb * 256 + vc * 16 + vd) (hlt : n < 0xd800)
    (hch : charOfCode n = some ch) :
    readEsc ('u' :: a :: b :: c2 :: d :: tail) = some (ch, tail) := by
  rw [readEsc, if_pos rfl]
  simp only [ha, hb, hc, hd, Option.bind_eq_bind, Option.some_bind]
  rw [← hn]
  rw [if_pos (show (decide (n < 55296) || decide (57343 < n)) = true by simp [hlt])]
  simp only [hch, Option.bind_eq_bind, Option.some_bind]

theorem parseStr_escChar (c : Char) (f : Nat) (tail : List Char) :
    parseStrChars (f + 1) (escChar c ++ tail) =
      Option.map (fun p => (c :: p.1, p.2)) (parseStrChars f tail) := by
  by_cases h1 : c = '"'
  · subst h1
    cases hp : parseStrChars f tail <;>
      simp [escChar, parseStrChars, readEsc, escCode, hp]
  by_cases h2 : c = '\\'
  · subst h2
    cases hp : parseStrChars f tail <;>
      simp [escChar, parseStrChars, readEsc, escCode, hp]
  by_cases h3 : c.toNat = 8
  · have : c = Char.ofNat 8 := charEq_of_toNat (by rw [h3]; decide)
    subst this
    cases hp : parseStrChars f tail <;>
      simp [escChar, parseStrChars, readEsc, escCode, hp]
  by_cases h4 : c.toNat = 9
  · have : c = Char.ofNat 9 := charEq_of_toNat (by rw [h4]; decide)
    subst this
    cases hp : parseStrChars f tail <;>
      simp [escChar, parseStrChars, readEsc, escCode, hp]
  by_cases h5 : c.toNat = 10
  · have : c = Char.ofNat 10 := charEq_of_toNat (by rw [h5]; decide)
    subst this
    cases hp : parseStrChars f tail <;>
      simp [escChar, parseStrChars, readEsc, escCode, hp]
  by_cases h6 : c.toNat = 12
  · have : c = Char.ofNat 12 := charEq_of_toNat (by rw [h6]; decide)
    subst this
    cases hp : parseStrChars f tail <;>
      simp [escChar, parseStrChars, readEsc, escCode, hp]
  by_cases h7 : c.toNat = 13
  · have : c = Char.ofNat 13 := charEq_of_toNat (by rw [h7]; decide)
    subst this
    cases hp : parseStrChars f tail <;>
      simp [escChar, parseStrChars, readEsc, escCode, hp]
  by_cases hlt : c.toNat < 32
  · have he : escChar c =
        ['\\', 'u', '0', '0', hexCh (c.toNat / 16), hexCh (c.toNat % 16)] := by
      rw [escChar, if_neg h1, if_neg h2, if_neg h3, if_neg h4, if_neg h5, if_neg h6,
        if_neg h7, if_pos hlt]
    rw [he]
    have hre := readEsc_unicode '0' '0' (hexCh (c.toNat / 16)) (hexCh (c.toNat % 16)) c
      0 0 (c.toNat / 16) (c.toNat % 16) c.toNat tail (by decide) (by decide)
      (hexVal_hexCh (by omega)) (hexVal_hexCh (by omega)) (by omega) (by omega)
      (charOfCode_toNat c)
    show parseStrChars (f + 1) ('\\' :: 'u' :: '0' :: '0' :: hexCh (c.toNat / 16) ::
      hexCh (c.toNat % 16) :: tail) = _
    rw [parseStrChars, if_neg (by decide : ¬('\\' = '"')), if_pos rfl, hre]
    cases hp : parseStrChars f tail <;> simp [hp]
  · have he : escChar c = [c] := by
      rw [escChar, if_neg h1, if_neg h2, if_neg h3, if_neg h4, if_neg h5, if_neg h6,
        if_neg h7, if_neg hlt]
    rw [he]
    show parseStrChars (f + 1) (c :: tail) = _
    rw [parseStrChars, if_neg h1, if_neg h2, if_neg hlt]
    cases hp : parseStrChars f tail <;> simp [hp]

theorem parseStrChars_escList : ∀ (l : List Char) (f : Nat) (rest : List Char),
    l.length ≤ f → parseStrChars (f + 1) (escList l ++ '"' :: rest) = some (l, rest) := by
  intro l
  induction l with
  | nil =>
      intro f rest _
      show parseStrChars (f + 1) ('"' :: rest) = some ([], rest)
      rw [parseStrChars, if_pos rfl]
  | cons c cs ih =>
      intro f rest hf
      obtain ⟨f2, rfl⟩ : ∃ f2, f = f2 + 1 := ⟨f - 1, by simp at hf; omega⟩
      show parseStrChars (f2 + 1 + 1) ((escChar c ++ escList cs) ++ '"' :: rest) = _
      rw [List.append_assoc, parseStr_escChar, ih f2 rest (by simp at hf; omega)]
      rfl

theorem escList_length (l : List Char) : l.length ≤ (escList l).length := by
  induction l with
  | nil => simp [escList]
  | cons c cs ih =>
      have h1 : 1 ≤ (escChar c).length := by
        rw [escChar]
        repeat' split
        all_goals simp
      simp only [escList, List.length_append, List.length_cons]
      omega

/-! ## Round-trip: number lemmas -/

theorem isDigitC_bounds {c : Char} (h : isDigitC c = true) :
    48 ≤ c.toNat ∧ c.toNat ≤ 57 := by
  simp only [isDigitC, Bool.and_eq_true, decide_eq_true_eq] at h
  exact h

theorem isDigitC_digitCh {d : Nat} (h : d < 10) : isDigitC (digitCh d) = true := by
  interval_cases d <;> decide

theorem dval_digitCh {d : Nat} (h : d < 10) : dval (digitCh d) = d := by
  interval_cases d <;> decide

theorem digitCh_ne_zeroCh {d : Nat} (h1 : d < 10) (h2 : 0 < d) : digitCh d ≠ '0' := by
  interval_cases d <;> decide

theorem isDigitC_not_ws {c : Char} (h : isDigitC c = true) : isJWs c = false := by
  obtain ⟨h1, h2⟩ := isDigitC_bounds h
  simp only [isJWs, Bool.or_eq_false_iff, decide_eq_false_iff_not]
  refine ⟨⟨⟨?_, ?_⟩, ?_⟩, ?_⟩ <;> exact ne_of_toNat_ne (by simp; omega)

theorem natChars_head (n : Nat) :
    ∃ c cs, natChars n = c :: cs ∧ isDigitC c = true ∧ (0 < n → c ≠ '0') := by
  induction n using natChars.induct with
  | case1 n h =>
      refine ⟨digitCh n, [], by rw [natChars, dif_pos h], isDigitC_digitCh h, ?_⟩
      intro h0
      exact digitCh_ne_zeroCh h h0
  | case2 n h ih =>
      obtain ⟨c, cs, hc, hd, hz⟩ := ih
      refine ⟨c, cs ++ [digitCh (n % 10)], ?_, hd, ?_⟩
      · rw [natChars, dif_neg h, hc]
        rfl
      · intro _
        exact hz (by omega)

theorem parseDigitsA_step {c : Char} (acc : Nat) (l : List Char) (h : isDigitC c = true) :
    parseDigitsA acc (c :: l) = parseDigitsA (acc * 10 + dval c) l := by
  rw [parseDigitsA, if_pos h]

theorem parseDigitsA_stop {acc : Nat} {l : List Char}
    (h : ∀ c cs, l = c :: cs → isDigitC c = false) :
    parseDigitsA acc l = (acc, l) := by
  cases l with
  | nil => rfl
  | cons c cs => rw [parseDigitsA, if_neg (by rw [h c cs rfl]; simp)]

theorem numStop_head_not_digit {c : Char} {cs : List Char}
    (h : numStop (c :: cs) = true) : isDigitC c = false := by
  simp only [numStop, Bool.not_eq_true', Bool.or_eq_false_iff] at h
  exact h.1.1.1

theorem parseDigitsA_natChars (n : Nat) : ∀ (acc : Nat) (rest : List Char),
    parseDigitsA acc (natChars n ++ rest) =
      parseDigitsA (acc * 10 ^ (natChars n).length + n) rest := by
  induction n using natChars.induct with
  | case1 n h =>
      intro acc rest
      rw [natChars, dif_pos h]
      rw [List.singleton_append, parseDigitsA_step acc _ (isDigitC_digitCh h),
        dval_digitCh h]
      simp
  | case2 n h ih =>
      intro acc rest
      rw [natChars, dif_neg h, List.append_assoc, List.singleton_append, ih,
        parseDigitsA_step _ _ (isDigitC_digitCh (by omega)), dval_digitCh (by omega)]
      have hlen : (natChars (n / 10) ++ [digitCh (n % 10)]).length =
          (natChars (n / 10)).length + 1 := by simp
      rw [hlen]
      congr 1
      have key : ∀ A : Nat, (A + n / 10) * 10 + n % 10 = A * 10 + n := by
        intro A; omega
      rw [key, pow_succ, ← mul_assoc]

theorem parseNatNum_natChars (n : Nat) (rest : List Char) (h : numStop rest = true) :
    parseNatNum (natChars n ++ rest) = some (n, rest) := by
  obtain ⟨c, cs, hc, hd, hz⟩ := natChars_head n
  by_cases h0 : n = 0
  · subst h0
    have : natChars 0 = ['0'] := by rw [natChars]; rfl
    rw [this, List.singleton_append, parseNatNum, if_pos rfl, if_pos h]
  · rw [hc, List.cons_append, parseNatNum, if_neg ?zero, if_pos hd]
    case zero => exact hz (by omega)
    have hstep : parseDigitsA (dval c) (cs ++ rest) = (n, rest) := by
      have h1 : parseDigitsA 0 (natChars n ++ rest) = (n, rest) := by
        rw [parseDigitsA_natChars n 0 rest]
        rw [parseDigitsA_stop (fun c2 cs2 he => by rw [he] at h; exact numStop_head_not_digit h)]
        simp
      rw [hc, List.cons_append, parseDigitsA_step 0 _ hd] at h1
      simpa using h1
    rw [hstep]
    simp [h]

theorem parseNum_intChars (n : Int) (rest : List Char) (h : numStop rest = true) :
    parseNum (intChars n ++ rest) = some (.num n, rest) := by
  by_cases hneg : n < 0
  · rw [intChars, if_pos hneg, List.cons_append, parseNum, if_pos rfl,
      parseNatNum_natChars _ _ h]
    have h2 : -(n.natAbs : Int) = n := by omega
    simp only [Option.bind_eq_bind, Option.some_bind, h2]
  · rw [intChars, if_neg hneg]
    obtain ⟨c, cs, hc, hd, _⟩ := natChars_head n.toNat
    rw [hc, List.cons_append, parseNum, if_neg ?dash]
    case dash =>
      have := isDigitC_bounds hd
      exact ne_of_toNat_ne (by simp; omega)
    rw [← List.cons_append, ← hc, parseNatNum_natChars _ _ h]
    have h2 : (n.toNat : Int) = n := by omega
    simp [h2]

/-! ## Round-trip: serialization head facts and object building -/

theorem string_eta (s : String) : (⟨s.data⟩ : String) = s := rfl

theorem intChars_head (n : Int) :
    ∃ c cs, intChars n = c :: cs ∧ (isDigitC c = true ∨ c = '-') := by
  by_cases hneg : n < 0
  · exact ⟨'-', natChars n.natAbs, by rw [intChars, if_pos hneg], Or.inr rfl⟩
  · obtain ⟨c, cs, hc, hd, _⟩ := natChars_head n.toNat
    exact ⟨c, cs, by rw [intChars, if_neg hneg, hc], Or.inl hd⟩

theorem numHead_not_ws {c : Char} (h : isDigitC c = true ∨ c = '-') :
    isJWs c = false := by
  rcases h with h | h
  · exact isDigitC_not_ws h
  · rw [h]; decide

theorem numHead_ne {c : Char} (h : isDigitC c = true ∨ c = '-') :
    c ≠ '"' ∧ c ≠ '[' ∧ c ≠ '{' ∧ c ≠ 'n' ∧ c ≠ 't' ∧ c ≠ 'f' ∧ c ≠ ']' ∧ c ≠ '}' ∧
      (isDigitC c || decide (c = '-')) = true := by
  rcases h with h | h
  · obtain ⟨h1, h2⟩ := isDigitC_bounds h
    refine ⟨?_, ?_, ?_, ?_, ?_, ?_, ?_, ?_, by simp [h]⟩ <;>
      exact ne_of_toNat_ne (by simp; omega)
  · subst h
    exact ⟨by decide, by decide, by decide, by decide, by decide, by decide,
      by decide, by decide, by decide⟩

theorem serJ_head (d : Nat) (j : Json) :
    ∃ c cs, serJ d j = c :: cs ∧ isJWs c = false ∧ c ≠ ']' ∧ c ≠ '}' := by
  cases j with
  | null => exact ⟨'n', _, by rw [serJ], by decide, by decide, by decide⟩
  | bool b =>
      cases b with
      | true => exact ⟨'t', _, by rw [serJ], by decide, by decide, by decide⟩
      | false => exact ⟨'f', _, by rw [serJ], by decide, by decide, by decide⟩
  | num n =>
      obtain ⟨c, cs, hc, hd⟩ := intChars_head n
      have hne := numHead_ne hd
      exact ⟨c, cs, by rw [serJ, hc], numHead_not_ws hd, hne.2.2.2.2.2.2.1,
        hne.2.2.2.2.2.2.2.1⟩
  | str s =>
      exact ⟨'"', _, by rw [serJ, serStrLit], by decide, by decide, by decide⟩
  | arr xs =>
      cases xs with
      | nil => exact ⟨'[', _, by rw [serJ], by decide, by decide, by decide⟩
      | cons x xs2 => exact ⟨'[', _, by rw [serJ], by decide, by decide, by decide⟩
  | obj fs =>
      cases fs with
      | nil => exact ⟨'{', _, by rw [serJ], by decide, by decide, by decide⟩
      | cons k v fs2 => exact ⟨'{', _, by rw [serJ], by decide, by decide, by decide⟩

theorem numStop_serArrTailC (d : Nat) (xs : JsonList) (rest : List Char) :
    numStop (serArrTailC d xs ++ rest) = true := by
  cases xs <;> rw [serArrTailC] <;> simp [numStop, isDigitC]

theorem numStop_serObjTailC (d : Nat) (fs : JsonFields) (rest : List Char) :
    numStop (serObjTailC d fs ++ rest) = true := by
  cases fs <;> rw [serObjTailC] <;> simp [numStop, isDigitC]

theorem fieldsInd (P : JsonFields → Prop) (h0 : P .nil)
    (h1 : ∀ k v fs, P fs → P (.cons k v fs)) : ∀ fs, P fs
  | .nil => h0
  | .cons k v fs => h1 k v fs (fieldsInd P h0 h1 fs)

theorem fappend_nil : ∀ a : JsonFields, fappend a .nil = a
  | .nil => rfl
  | .cons k v fs => by rw [fappend, fappend_nil fs]

theorem fappend_assoc : ∀ (a : JsonFields) (b c : JsonFields),
    fappend (fappend a b) c = fappend a (fappend b c)
  | .nil, _, _ => rfl
  | .cons k v fs, b, c => by rw [fappend, fappend, fappend, fappend_assoc fs]

theorem fkeys_fappend : ∀ (a b : JsonFields),
    fkeys (fappend a b) = fkeys a ++ fkeys b
  | .nil, _ => rfl
  | .cons k v fs, b => by rw [fappend, fkeys, fkeys, fkeys_fappend fs]; rfl

theorem containsS_append (a b : List String) (k : String) :
    (a ++ b).contains k = (a.contains k || b.contains k) := by
  simp [List.contains_eq_any_beq, List.any_append]

theorem defineProp_append {acc : JsonFields} {k : String} (v : Json)
    (h : (fkeys acc).contains k = false) :
    defineProp acc k v = fappend acc (.cons k v .nil) := by
  induction acc using fieldsInd with
  | h0 => rfl
  | h1 k2 v2 fs ih =>
      rw [fkeys] at h
      simp only [List.contains_cons, Bool.or_eq_false_iff] at h
      rw [defineProp, if_neg ?ne, fappend, ih h.2]
      case ne =>
        intro he
        rw [he] at h
        simp at h

theorem buildObjAux_eq (raw : JsonFields) : ∀ acc : JsonFields,
    (∀ k, (fkeys raw).contains k = true → (fkeys acc).contains k = false) →
    nodupKeys raw = true →
    buildObjAux acc raw = fappend acc raw := by
  induction raw using fieldsInd with
  | h0 => intro acc _ _; rw [buildObjAux, fappend_nil]
  | h1 k v fs ih =>
      intro acc hdisj hnd
      rw [nodupKeys, Bool.and_eq_true] at hnd
      rw [buildObjAux, defineProp_append v (hdisj k (by simp [fkeys])),
        ih _ ?disj hnd.2, fappend_assoc]
      rfl
      case disj =>
        intro k2 hk2
        rw [fkeys_fappend, containsS_append]
        simp only [Bool.or_eq_false_iff]
        have hk2m : (fkeys (JsonFields.cons k v fs)).contains k2 = true := by
          rw [fkeys]
          simp only [List.contains_cons]
          rw [hk2]
          simp
        refine ⟨hdisj k2 hk2m, ?_⟩
        simp only [fkeys, List.contains_cons]
        simp only [Bool.not_eq_true'] at hnd
        have hne : ¬(k = k2) := by
          intro he
          subst he
          rw [hk2] at hnd
          simp at hnd
        have hne2 : ¬(k2 = k) := fun he => hne he.symm
        simp [hne2]

theorem buildObj_eq {raw : JsonFields} (h : nodupKeys raw = true) :
    buildObj raw = raw := by
  rw [buildObj, buildObjAux_eq raw .nil (fun k _ => by simp [fkeys]) h]
  rfl

/-! ## Round-trip: the main induction -/

theorem skipWs_cons_ws {c : Char} (l : List Char) (h : isJWs c = true) :
    skipWs (c :: l) = skipWs l := by
  simp [skipWs, h]

mutual

theorem parseV_ser : ∀ (j : Json) (ws : List Char) (f d : Nat) (rest : List Char),
    (∀ c ∈ ws, isJWs c = true) → keysOk j = true → fuelJ j ≤ f → numStop rest = true →
    parseV f (ws ++ (serJ d j ++ rest)) = some (j, rest)
  | .null => by
      intro ws f d rest hws _ hf hstop
      obtain ⟨f2, rfl⟩ : ∃ f2, f = f2 + 1 := ⟨f - 1, by rw [fuelJ] at hf; omega⟩
      rw [serJ, parseV]
      simp only [List.cons_append, List.nil_append]
      rw [skipWs_append_of_ws _ _ hws, skipWs_cons_of_not _ (by decide)]
      simp
  | .bool true => by
      intro ws f d rest hws _ hf hstop
      obtain ⟨f2, rfl⟩ : ∃ f2, f = f2 + 1 := ⟨f - 1, by rw [fuelJ] at hf; omega⟩
      rw [serJ, parseV]
      simp only [List.cons_append, List.nil_append]
      rw [skipWs_append_of_ws _ _ hws, skipWs_cons_of_not _ (by decide)]
      simp
  | .bool false => by
      intro ws f d rest hws _ hf hstop
      obtain ⟨f2, rfl⟩ : ∃ f2, f = f2 + 1 := ⟨f - 1, by rw [fuelJ] at hf; omega⟩
      rw [serJ, parseV]
      simp only [List.cons_append, List.nil_append]
      rw [skipWs_append_of_ws _ _ hws, skipWs_cons_of_not _ (by decide)]
      simp
  | .num n => by
      intro ws f d rest hws _ hf hstop
      obtain ⟨f2, rfl⟩ : ∃ f2, f = f2 + 1 := ⟨f - 1, by rw [fuelJ] at hf; omega⟩
      obtain ⟨c, cs, hc, hd2⟩ := intChars_head n
      have hne := numHead_ne hd2
      rw [serJ, parseV, hc]
      simp only [List.cons_append, List.nil_append]
      rw [skipWs_append_of_ws _ _ hws, skipWs_cons_of_not _ (numHead_not_ws hd2)]
      dsimp only
      rw [if_neg hne.1, if_neg hne.2.1, if_neg hne.2.2.1, if_neg hne.2.2.2.1,
        if_neg hne.2.2.2.2.1, if_neg hne.2.2.2.2.2.1, if_pos hne.2.2.2.2.2.2.2.2]
      rw [← List.cons_append, ← hc, parseNum_intChars n rest hstop]
  | .str s => by
      intro ws f d rest hws _ hf hstop
      obtain ⟨f2, rfl⟩ : ∃ f2, f = f2 + 1 := ⟨f - 1, by rw [fuelJ] at hf; omega⟩
      rw [serJ, serStrLit, parseV]
      simp only [List.cons_append, List.nil_append, List.append_assoc]
      rw [skipWs_append_of_ws _ _ hws, skipWs_cons_of_not _ (by decide)]
      dsimp only
      rw [if_pos rfl]
      rw [parseStrChars_escList s.data _ _ (by
        simp only [List.length_append, List.length_cons]
        have := escList_length s.data
        omega)]
      simp
  | .arr .nil => by
      intro ws f d rest hws _ hf hstop
      obtain ⟨f2, rfl⟩ : ∃ f2, f = f2 + 1 := ⟨f - 1, by rw [fuelJ] at hf; omega⟩
      rw [serJ, parseV]
      simp only [List.cons_append, List.nil_append]
      rw [skipWs_append_of_ws _ _ hws, skipWs_cons_of_not _ (by decide)]
      dsimp only
      rw [if_neg (by decide : ¬('[' = '"')), if_pos rfl,
        skipWs_cons_of_not _ (by decide)]
      simp
  | .arr (.cons x xs) => by
      intro ws f d rest hws hk hf hstop
      rw [fuelJ] at hf
      obtain ⟨f2, rfl⟩ : ∃ f2, f = f2 + 1 := ⟨f - 1, by omega⟩
      have hfx : fuelJ x ≤ f2 := by omega
      have hfxs : fuelL xs ≤ f2 := by omega
      rw [keysOk, keysOkL, Bool.and_eq_true] at hk
      obtain ⟨c2, cs2, hhead, hnws, hne1, _⟩ := serJ_head (d + 1) x
      rw [serJ, parseV]
      simp only [List.cons_append, List.nil_append, List.append_assoc]
      rw [skipWs_append_of_ws _ _ hws, skipWs_cons_of_not _ (by decide)]
      dsimp only
      rw [if_neg (by decide : ¬('[' = '"')), if_pos rfl]
      rw [skipWs_cons_ws _ (by decide), skipWs_append_of_ws _ _ (indent_ws (d + 1))]
      rw [hhead, List.cons_append, skipWs_cons_of_not _ hnws]
      dsimp only
      rw [if_neg hne1]
      rw [← List.cons_append, ← hhead]
      have ihx := parseV_ser x [] f2 (d + 1) (serArrTailC d xs ++ rest)
        (by intro c hcm; simp at hcm) hk.1 hfx (numStop_serArrTailC d xs rest)
      rw [List.nil_append] at ihx
      rw [ihx]
      rw [Option.bind_eq_bind, Option.some_bind]
      rw [parseArrTail_ser xs f2 d rest hk.2 hfxs hstop]
      rfl
  | .obj .nil => by
      intro ws f d rest hws _ hf hstop
      obtain ⟨f2, rfl⟩ : ∃ f2, f = f2 + 1 := ⟨f - 1, by rw [fuelJ] at hf; omega⟩
      rw [serJ, parseV]
      simp only [List.cons_append, List.nil_append]
      rw [skipWs_append_of_ws _ _ hws, skipWs_cons_of_not _ (by decide)]
      dsimp only
      rw [if_neg (by decide : ¬('{' = '"')), if_neg (by decide : ¬('{' = '[')),
        if_pos rfl, skipWs_cons_of_not _ (by decide)]
      simp
  | .obj (.cons k v fs) => by
      intro ws f d rest hws hk hf hstop
      rw [fuelJ] at hf
      obtain ⟨f2, rfl⟩ : ∃ f2, f = f2 + 1 := ⟨f - 1, by omega⟩
      have hfv : 1 + fuelJ v ≤ f2 := by omega
      have hffs : fuelF fs ≤ f2 := by omega
      rw [keysOk, Bool.and_eq_true, keysOkF, Bool.and_eq_true] at hk
      obtain ⟨hnd, hkv, hkfs⟩ : nodupKeys (JsonFields.cons k v fs) = true ∧
          keysOk v = true ∧ keysOkF fs = true := ⟨hk.1, hk.2.1, hk.2.2⟩
      rw [serJ, parseV]
      simp only [List.cons_append, List.nil_append, List.append_assoc]
      rw [skipWs_append_of_ws _ _ hws, skipWs_cons_of_not _ (by decide)]
      dsimp only
      rw [if_neg (by decide : ¬('{' = '"')), if_neg (by decide : ¬('{' = '[')),
        if_pos rfl]
      rw [serStrLit]
      simp only [List.cons_append, List.nil_append, List.append_assoc]
      rw [skipWs_cons_ws _ (by decide), skipWs_append_of_ws _ _ (indent_ws (d + 1))]
      rw [skipWs_cons_of_not _ (by decide : isJWs '"' = false)]
      dsimp only
      rw [if_neg (by decide : ¬('"' = '}'))]
      have hmem := parseMember_ser_aux k v [] f2 (d + 1)
        (serObjTailC d fs ++ rest) (by intro c hcm; simp at hcm)
        (numStop_serObjTailC d fs rest) (by omega)
        (fun ws2 rest2 h1 h2 => parseV_ser v ws2 (f2 - 1) (d + 1) rest2 h1 hkv
          (by omega) h2)
      rw [serKV, serStrLit, List.nil_append] at hmem
      simp only [List.cons_append, List.nil_append, List.append_assoc] at hmem
      rw [hmem]
      rw [Option.bind_eq_bind, Option.some_bind]
      rw [parseObjTail_ser fs f2 d rest hkfs hffs hstop]
      simp [buildObj_eq hnd]

theorem parseMember_ser_aux : ∀ (k : String) (v : Json) (ws : List Char) (f d : Nat)
    (rest : List Char),
    (∀ c ∈ ws, isJWs c = true) → numStop rest = true → 1 ≤ f →
    (∀ (ws2 rest2 : List Char), (∀ c ∈ ws2, isJWs c = true) → numStop rest2 = true →
      parseV (f - 1) (ws2 ++ (serJ d v ++ rest2)) = some (v, rest2)) →
    parseMember f (ws ++ (serKV d k v ++ rest)) = some (k, v, rest) := by
  intro k v ws f d rest hws hstop hf hv
  obtain ⟨f2, rfl⟩ : ∃ f2, f = f2 + 1 := ⟨f - 1, by omega⟩
  rw [serKV, serStrLit, parseMember]
  simp only [List.cons_append, List.nil_append, List.append_assoc]
  rw [skipWs_append_of_ws _ _ hws, skipWs_cons_of_not _ (by decide)]
  dsimp only
  rw [if_pos rfl]
  rw [parseStrChars_escList k.data _ _ (by
    simp only [List.length_append, List.length_cons]
    have := escList_length k.data
    omega)]
  rw [Option.bind_eq_bind, Option.some_bind]
  rw [skipWs_cons_of_not _ (by decide)]
  dsimp only
  rw [if_pos rfl]
  have hpv := hv [' '] rest (by intro c hcm; simp at hcm; rw [hcm]; rfl) hstop
  simp only [List.cons_append, List.nil_append, Nat.add_sub_cancel] at hpv
  rw [hpv]
  rw [Option.bind_eq_bind, Option.some_bind, string_eta]

theorem parseArrTail_ser : ∀ (xs : JsonList) (f d : Nat) (rest : List Char),
    keysOkL xs = true → fuelL xs ≤ f → numStop rest = true →
    parseArrTail f (serArrTailC d xs ++ rest) = some (xs, rest)
  | .nil => by
      intro f d rest _ hf hstop
      obtain ⟨f2, rfl⟩ : ∃ f2, f = f2 + 1 := ⟨f - 1, by rw [fuelL] at hf; omega⟩
      rw [serArrTailC, parseArrTail]
      simp only [List.cons_append, List.nil_append, List.append_assoc]
      rw [skipWs_cons_ws _ (by decide), skipWs_append_of_ws _ _ (indent_ws d),
        skipWs_cons_of_not _ (by decide)]
      simp
  | .cons y ys => by
      intro f d rest hk hf hstop
      rw [fuelL] at hf
      obtain ⟨f2, rfl⟩ : ∃ f2, f = f2 + 1 := ⟨f - 1, by omega⟩
      have hfy : fuelJ y ≤ f2 := by omega
      have hfys : fuelL ys ≤ f2 := by omega
      rw [keysOkL, Bool.and_eq_true] at hk
      rw [serArrTailC, parseArrTail]
      simp only [List.cons_append, List.nil_append, List.append_assoc]
      rw [skipWs_cons_of_not _ (by decide)]
      dsimp only
      rw [if_neg (by decide : ¬(',' = ']')), if_pos rfl]
      have ihy := parseV_ser y ('\n' :: indentChars (d + 1)) f2 (d + 1)
        (serArrTailC d ys ++ rest)
        (by
          intro c hcm
          simp only [List.mem_cons] at hcm
          rcases hcm with h | h
          · rw [h]; rfl
          · exact indent_ws _ _ h)
        hk.1 hfy (numStop_serArrTailC d ys rest)
      simp only [List.cons_append, List.nil_append, List.append_assoc] at ihy
      rw [ihy]
      rw [Option.bind_eq_bind, Option.some_bind]
      rw [parseArrTail_ser ys f2 d rest hk.2 hfys hstop]
      rfl

theorem parseObjTail_ser : ∀ (fs : JsonFields) (f d : Nat) (rest : List Char),
    keysOkF fs = true → fuelF fs ≤ f → numStop rest = true →
    parseObjTail f (serObjTailC d fs ++ rest) = some (fs, rest)
  | .nil => by
      intro f d rest _ hf hstop
      obtain ⟨f2, rfl⟩ : ∃ f2, f = f2 + 1 := ⟨f - 1, by rw [fuelF] at hf; omega⟩
      rw [serObjTailC, parseObjTail]
      simp only [List.cons_append, List.nil_append, List.append_assoc]
      rw [skipWs_cons_ws _ (by decide), skipWs_append_of_ws _ _ (indent_ws d),
        skipWs_cons_of_not _ (by decide)]
      simp
  | .cons k v fs => by
      intro f d rest hk hf hstop
      rw [fuelF] at hf
      obtain ⟨f2, rfl⟩ : ∃ f2, f = f2 + 1 := ⟨f - 1, by omega⟩
      have hfv : 1 + fuelJ v ≤ f2 := by omega
      have hffs : fuelF fs ≤ f2 := by omega
      rw [keysOkF, Bool.and_eq_true] at hk
      rw [serObjTailC, parseObjTail]
      simp only [List.cons_append, List.nil_append, List.append_assoc]
      rw [skipWs_cons_of_not _ (by decide)]
      dsimp only
      rw [if_neg (by decide : ¬(',' = '}')), if_pos rfl]
      have hmem := parseMember_ser_aux k v ('\n' :: indentChars (d + 1)) f2 (d + 1)
        (serObjTailC d fs ++ rest)
        (by
          intro c hcm
          simp only [List.mem_cons] at hcm
          rcases hcm with h | h
          · rw [h]; rfl
          · exact indent_ws _ _ h)
        (numStop_serObjTailC d fs rest) (by omega)
        (fun ws2 rest2 h1 h2 => parseV_ser v ws2 (f2 - 1) (d + 1) rest2 h1 hk.1
          (by omega) h2)
      rw [serKV] at hmem
      simp only [List.cons_append, List.nil_append, List.append_assoc] at hmem
      rw [hmem]
      rw [Option.bind_eq_bind, Option.some_bind]
      rw [parseObjTail_ser fs f2 d rest hk.2 hffs hstop]
      rfl

end

/-! ## Round-trip: fuel bounds and the replacer transformation -/

mutual

theorem fuelJ_le : ∀ (j : Json) (d : Nat), fuelJ j ≤ (serJ d j).length
  | .null, d => by rw [fuelJ, serJ]; simp
  | .bool true, d => by rw [fuelJ, serJ]; simp
  | .bool false, d => by rw [fuelJ, serJ]; simp
  | .num n, d => by
      obtain ⟨c, cs, hc, _⟩ := intChars_head n
      rw [fuelJ, serJ, hc]
      simp
  | .str s, d => by rw [fuelJ, serJ, serStrLit]; simp
  | .arr .nil, d => by rw [fuelJ, serJ]; simp
  | .arr (.cons x xs), d => by
      have h1 := fuelJ_le x (d + 1)
      have h2 := fuelL_le xs d
      rw [fuelJ, serJ]
      simp only [List.length_cons, List.length_append]
      omega
  | .obj .nil, d => by rw [fuelJ, serJ]; simp
  | .obj (.cons k v fs), d => by
      have h1 := fuelJ_le v (d + 1)
      have h2 := fuelF_le fs d
      rw [fuelJ, serJ, serStrLit]
      simp only [List.length_cons, List.length_append]
      omega

theorem fuelL_le : ∀ (xs : JsonList) (d : Nat), fuelL xs ≤ (serArrTailC d xs).length
  | .nil, d => by rw [fuelL, serArrTailC]; simp
  | .cons y ys, d => by
      have h1 := fuelJ_le y (d + 1)
      have h2 := fuelL_le ys d
      rw [fuelL, serArrTailC]
      simp only [List.length_cons, List.length_append]
      omega

theorem fuelF_le : ∀ (fs : JsonFields) (d : Nat), fuelF fs ≤ (serObjTailC d fs).length
  | .nil, d => by rw [fuelF, serObjTailC]; simp
  | .cons k v fs, d => by
      have h1 := fuelJ_le v (d + 1)
      have h2 := fuelF_le fs d
      rw [fuelF, serObjTailC, serStrLit]
      simp only [List.length_cons, List.length_append]
      omega

end

theorem nodupKeys_eq (fs : JsonFields) : nodupKeys fs = nodupL (fkeys fs) := by
  induction fs using fieldsInd with
  | h0 => rfl
  | h1 k v fs ih => rw [nodupKeys, fkeys, nodupL, ih]

mutual

theorem transformE_good : ∀ (j : Json), goodJ j = true →
    ∃ t, transformE j = .ok t ∧ keysOk t = true
  | .null, _ => ⟨.null, by rw [transformE], by simp [keysOk]⟩
  | .bool b, _ => ⟨.bool b, by rw [transformE], by simp [keysOk]⟩
  | .num n, _ => ⟨.num n, by rw [transformE], by simp [keysOk]⟩
  | .str s, _ => ⟨.str s, by rw [transformE], by simp [keysOk]⟩
  | .arr xs, hg => by
      rw [goodJ] at hg
      obtain ⟨xs2, hxs2, hk2⟩ := transformL_good xs hg
      exact ⟨.arr xs2, by rw [transformE, hxs2]; rfl, by simp [keysOk]; exact hk2⟩
  | .obj fs, hg => by
      rw [goodJ] at hg
      by_cases hbn : isBNShapeF fs = true
      · rw [if_pos hbn] at hg
        obtain ⟨n, hn⟩ : ∃ n, bigNumberFromF fs = .ok n := by
          cases hb : bigNumberFromF fs with
          | ok n => exact ⟨n, rfl⟩
          | error e => rw [hb, eIsOk] at hg; exact absurd hg (by simp)
        exact ⟨.str (intRepr n), by rw [transformE, if_pos hbn, hn]; rfl,
          by simp [keysOk]⟩
      · rw [if_neg hbn, Bool.and_eq_true] at hg
        obtain ⟨fs2, hfs2, hk2, hkeys⟩ := transformF_good fs hg.2
        refine ⟨.obj fs2, by rw [transformE, if_neg hbn, hfs2]; rfl, ?_⟩
        rw [keysOk, Bool.and_eq_true]
        refine ⟨?_, hk2⟩
        rw [nodupKeys_eq, hkeys, ← nodupKeys_eq]
        exact hg.1

theorem transformL_good : ∀ (xs : JsonList), goodL xs = true →
    ∃ xs2, transformL xs = .ok xs2 ∧ keysOkL xs2 = true
  | .nil, _ => ⟨.nil, by rw [transformL], by rw [keysOkL]⟩
  | .cons x xs, hg => by
      rw [goodL, Bool.and_eq_true] at hg
      obtain ⟨x2, hx2, hkx⟩ := transformE_good x hg.1
      obtain ⟨xs2, hxs2, hkxs⟩ := transformL_good xs hg.2
      refine ⟨.cons x2 xs2, ?_, ?_⟩
      · rw [transformL, hx2, hxs2]
        rfl
      · rw [keysOkL, Bool.and_eq_true]
        exact ⟨hkx, hkxs⟩

theorem transformF_good : ∀ (fs : JsonFields), goodF fs = true →
    ∃ fs2, transformF fs = .ok fs2 ∧ keysOkF fs2 = true ∧ fkeys fs2 = fkeys fs
  | .nil, _ => ⟨.nil, by rw [transformF], by rw [keysOkF], rfl⟩
  | .cons k v fs, hg => by
      rw [goodF, Bool.and_eq_true] at hg
      obtain ⟨v2, hv2, hkv⟩ := transformE_good v hg.1
      obtain ⟨fs2, hfs2, hkfs, hkeys⟩ := transformF_good fs hg.2
      refine ⟨.cons k v2 fs2, ?_, ?_, ?_⟩
      · rw [transformF, hv2, hfs2]
        rfl
      · rw [keysOkF, Bool.and_eq_true]
        exact ⟨hkv, hkfs⟩
      · rw [fkeys, fkeys, hkeys]

end

/-! ## Round-trip: final assembly -/

theorem jsonParse_serialized (t : Json) (hk : keysOk t = true) :
    jsonParse (⟨serJ 0 t ++ ['\n']⟩ : String) = some t := by
  have hdata : (⟨serJ 0 t ++ ['\n']⟩ : String).data = serJ 0 t ++ ['\n'] := rfl
  rw [jsonParse, hdata]
  have hfuel : fuelJ t ≤ (serJ 0 t ++ ['\n']).length + 1 := by
    have := fuelJ_le t 0
    simp only [List.length_append]
    omega
  have hp := parseV_ser t [] ((serJ 0 t ++ ['\n']).length + 1) 0 ['\n']
    (by intro c hcm; simp at hcm) hk hfuel (by rfl)
  rw [List.nil_append] at hp
  rw [hp]
  rfl

theorem stringify_roundtrip (j : Json) (hg : goodJ j = true) :
    ∃ t, transformE j = .ok t ∧
      stringify j = .ok (⟨serJ 0 t ++ ['\n']⟩ : String) ∧
      jsonParse (⟨serJ 0 t ++ ['\n']⟩ : String) = some t := by
  obtain ⟨t, ht, hk⟩ := transformE_good j hg
  refine ⟨t, ht, ?_, jsonParse_serialized t hk⟩
  rw [stringify, JSONstringifyTab, ht]
  rfl

/-! ## Claims: validators, prompts and links -/

/-- Claim C9: `getExplorerLinkPrefix` returns `https://etherscan.io`
for mainnet without OVM, and `https://goerli-explorer.optimism.io` for
goerli with OVM. -/
theorem getExplorerLinkPrefix_values :
    getExplorerLinkPrefix "mainnet" false = "https://etherscan.io" ∧
    getExplorerLinkPrefix "goerli" true = "https://goerli-explorer.optimism.io" := by
  constructor <;> rfl

/-- Claim C10: `allowZeroOrUpdateIfNonZero param input` is true exactly
when the parameter is the string zero or the input is not the string
zero. -/
theorem allowZeroOrUpdateIfNonZero_spec (param input : String) :
    allowZeroOrUpdateIfNonZero param input = true ↔ (param = "0" ∨ input ≠ "0") := by
  simp [allowZeroOrUpdateIfNonZero]

/-- Witness for claim C10 at `param = "0"`, `input = "0"`. -/
theorem allowZeroOrUpdateIfNonZero_spec_witness :
    allowZeroOrUpdateIfNonZero "0" "0" = true :=
  (allowZeroOrUpdateIfNonZero_spec "0" "0").mpr (Or.inl rfl)

/-- Counterexample to claim C2 as stated: the input `"yes"` is neither
`"y"` nor `"Y"`, yet `confirmAction` resolves on it, because `/y|Y/`
tests for containment, not equality. -/
theorem confirmAction_yes_counterexample :
    confirmAction "yes" = .ok () ∧ "yes" ≠ "y" ∧ "yes" ≠ "Y" := by
  refine ⟨rfl, by decide, by decide⟩

/-- Claim C2 (amended): `confirmAction` resolves exactly when the input
contains a `y` or a `Y`, and rejects with message `Not confirmed`
otherwise. -/
theorem confirmAction_spec (answer : String) :
    (confirmAction answer = .ok () ↔ regexYorY answer = true) ∧
    (regexYorY answer = false → confirmAction answer = .error ⟨"Not confirmed"⟩) := by
  constructor
  · constructor
    · intro h
      by_cases hy : regexYorY answer
      · exact hy
      · rw [confirmAction, if_neg hy] at h
        exact absurd h (by simp)
    · intro h
      rw [confirmAction, if_pos h]
  · intro h
    rw [confirmAction, if_neg (by rw [h]; simp)]

/-- Witness for claim C2 at the input `"n"`. -/
theorem confirmAction_spec_witness :
    confirmAction "n" = .error ⟨"Not confirmed"⟩ :=
  (confirmAction_spec "n").2 (by decide)

/-- Claim C5: the error classifier returns normally exactly when
solidity-generation or dry-run mode is on and the message matches
`/Missing address:\s[\w]+/`; in every other case it re-raises the very
same error. -/
theorem catchMissingResolver_spec (contract : String) (dryRun generateSolidity : Bool)
    (err : JsError) :
    (catchMissingResolverWhenGeneratingSolidity contract dryRun err generateSolidity =
        .ok () ↔
      ((generateSolidity || dryRun) && missingAddrTest err.message) = true) ∧
    (((generateSolidity || dryRun) && missingAddrTest err.message) = false →
      catchMissingResolverWhenGeneratingSolidity contract dryRun err generateSolidity =
        .error err) := by
  constructor
  · constructor
    · intro h
      by_cases hc : ((generateSolidity || dryRun) && missingAddrTest err.message) = true
      · exact hc
      · rw [catchMissingResolverWhenGeneratingSolidity, if_neg hc] at h
        exact absurd h (by simp)
    · intro h
      rw [catchMissingResolverWhenGeneratingSolidity, if_pos h]
  · intro h
    rw [catchMissingResolverWhenGeneratingSolidity, if_neg (by rw [h]; simp)]

/-- Witness for claim C5: the message `Missing address: FeePool` is
swallowed in generate-solidity mode and re-raised outside it. -/
theorem catchMissingResolver_spec_witness :
    catchMissingResolverWhenGeneratingSolidity "FeePool" false
      ⟨"Missing address: FeePool"⟩ true = .ok () :=
  (catchMissingResolver_spec "FeePool" false true ⟨"Missing address: FeePool"⟩).1.mpr
    (by decide)

theorem isPrefixOf_self_append (l post : List Char) :
    List.isPrefixOf l (l ++ post) = true := by
  induction l with
  | nil => simp [List.isPrefixOf]
  | cons c cs ih => simp [List.isPrefixOf, ih]

theorem containsSubChars_append (sub pre post : List Char) :
    containsSubChars sub (pre ++ (sub ++ post)) = true := by
  induction pre with
  | nil =>
      rw [List.nil_append]
      cases sub with
      | nil => cases post <;> simp [containsSubChars, List.isPrefixOf]
      | cons a as =>
          rw [List.cons_append, containsSubChars, ← List.cons_append,
            isPrefixOf_self_append]
          simp
  | cons c cs ih =>
      rw [List.cons_append, containsSubChars, ih]
      simp

/-- Claim C8: for every name outside the allow-list, `ensureNetwork`
throws an error whose message contains both the invalid name and the
comma-separated allowed list; for every allowed name it returns
normally. -/
theorem ensureNetwork_spec (network : String) :
    (networks.contains network = false →
      ∃ e, ensureNetwork network = .error e ∧
        strContainsSub e.message network = true ∧
        strContainsSub e.message (String.intercalate ", " networks) = true) ∧
    (networks.contains network = true → ensureNetwork network = .ok ()) := by
  constructor
  · intro h
    refine ⟨_, by rw [ensureNetwork, if_pos (by rw [h]; rfl)], ?_, ?_⟩
    · show strContainsSub
        ("Invalid network name of \"" ++ network ++ "\" supplied. Must be one of " ++
          String.intercalate ", " networks ++ ".") network = true
      rw [strContainsSub]
      have : ("Invalid network name of \"" ++ network ++ "\" supplied. Must be one of " ++
          String.intercalate ", " networks ++ ".").data =
          "Invalid network name of \"".data ++ (network.data ++
            ("\" supplied. Must be one of ".data ++
              (String.intercalate ", " networks).data ++ ".".data)) := by
        simp [String.data_append]
      rw [this]
      have h2 := containsSubChars_append network.data "Invalid network name of \"".data
        ("\" supplied. Must be one of ".data ++
          (String.intercalate ", " networks).data ++ ".".data)
      exact h2
    · show strContainsSub
        ("Invalid network name of \"" ++ network ++ "\" supplied. Must be one of " ++
          String.intercalate ", " networks ++ ".") (String.intercalate ", " networks) =
          true
      rw [strContainsSub]
      have : ("Invalid network name of \"" ++ network ++ "\" supplied. Must be one of " ++
          String.intercalate ", " networks ++ ".").data =
          ("Invalid network name of \"".data ++ network.data ++
            "\" supplied. Must be one of ".data) ++
            ((String.intercalate ", " networks).data ++ ".".data) := by
        simp [String.data_append]
      rw [this]
      exact containsSubChars_append (String.intercalate ", " networks).data _ _
  · intro h
    rw [ensureNetwork, if_neg (by rw [h]; simp)]

/-- Witness for claim C8: the name `bogus` is rejected with a message
naming it and the allowed list, and `mainnet` is accepted. -/
theorem ensureNetwork_spec_witness :
    (∃ e, ensureNetwork "bogus" = .error e ∧
      strContainsSub e.message "bogus" = true ∧
      strContainsSub e.message (String.intercalate ", " networks) = true) ∧
    ensureNetwork "mainnet" = .ok () :=
  ⟨(ensureNetwork_spec "bogus").1 (by decide),
    (ensureNetwork_spec "mainnet").2 (by decide)⟩

/-! ## Claims: connection loading and the serialization round trip -/

/-- Counterexample to claim C1 as stated: on a non-OVM, non-mainnet
network with `PROVIDER_URL` unset, `loadConnections` throws a
`TypeError` (the code calls `.replace` on `undefined`) instead of
returning with `providerUrl` undefined. -/
theorem loadConnections_missing_env_counterexample :
    loadConnections emptyEnv "goerli" false false =
      .error ⟨"TypeError: Cannot read properties of undefined reading replace"⟩ := rfl

/-- Claim C1 (amended): for a non-local network without a fork, missing
environment variables propagate as undefined fields on the OVM path and
for the private key, but on the non-OVM path the call throws exactly
when `PROVIDER_URL` is unset and the mainnet-specific variable does not
apply. -/
theorem loadConnections_env_spec (env : Env) (network : String) (useOvm : Bool)
    (hn : network ≠ "local") :
    (useOvm = true →
      ∃ c, loadConnections env network false true = .ok c ∧
        (envTruthy env.OVM_PROVIDER_URL = false →
          envTruthy env.OVM_GOERLI_PROVIDER_URL = false → c.providerUrl = none) ∧
        (network = "mainnet" → c.privateKey = env.DEPLOY_PRIVATE_KEY) ∧
        (network ≠ "mainnet" → c.privateKey = env.TESTNET_DEPLOY_PRIVATE_KEY)) ∧
    (useOvm = false →
      ((∃ e, loadConnections env network false false = .error e) ↔
        (env.PROVIDER_URL = none ∧
          ¬(network = "mainnet" ∧ envTruthy env.PROVIDER_URL_MAINNET = true)))) := by
  have hl : (network == "local" || false) = false := by
    simp only [Bool.or_false, beq_eq_false_iff_ne, ne_eq]
    exact hn
  constructor
  · intro _
    rw [loadConnections, hl]
    simp only [Bool.false_eq_true, if_false, if_true]
    by_cases h1 : (network == "mainnet" && envTruthy env.OVM_PROVIDER_URL) = true
    · rw [if_pos h1]
      refine ⟨_, rfl, ?_, ?_, ?_⟩
      · intro hov _
        rw [Bool.and_eq_true] at h1
        rw [hov] at h1
        exact absurd h1.2 (by simp)
      · intro hm
        rw [if_pos (by simp [hm])]
      · intro hm
        rw [if_neg (by simp [hm])]
    · rw [if_neg h1]
      by_cases h2 : envTruthy env.OVM_GOERLI_PROVIDER_URL = true
      · rw [if_pos h2]
        refine ⟨_, rfl, ?_, ?_, ?_⟩
        · intro _ hog
          rw [hog] at h2
          exact absurd h2 (by simp)
        · intro hm
          rw [if_pos (by simp [hm])]
        · intro hm
          rw [if_neg (by simp [hm])]
      · rw [if_neg h2]
        refine ⟨_, rfl, ?_, ?_, ?_⟩
        · intro _ _
          rfl
        · intro hm
          rw [if_pos (by simp [hm])]
        · intro hm
          rw [if_neg (by simp [hm])]
  · intro _
    rw [loadConnections, hl]
    simp only [Bool.false_eq_true, if_false]
    by_cases hm : (network == "mainnet" && envTruthy env.PROVIDER_URL_MAINNET) = true
    · rw [if_pos hm]
      rw [Bool.and_eq_true, beq_iff_eq] at hm
      constructor
      · intro ⟨e, he⟩
        simp [bind, Except.bind, pure, Except.pure] at he
      · intro ⟨_, hno⟩
        exact absurd ⟨hm.1, hm.2⟩ hno
    · rw [if_neg hm]
      cases hp : env.PROVIDER_URL with
      | none =>
          constructor
          · intro _
            refine ⟨rfl, ?_⟩
            intro ⟨hmn, htr⟩
            rw [Bool.and_eq_true] at hm
            exact hm ⟨by simp [hmn], htr⟩
          · intro _
            exact ⟨_, rfl⟩
      | some u =>
          constructor
          · intro ⟨e, he⟩
            simp [bind, Except.bind, pure, Except.pure] at he
          · intro ⟨hnone, _⟩
            exact absurd hnone (by simp)

/-- Witness for claim C1: with every variable unset, the OVM call on
goerli returns with both the provider URL and the private key
undefined. -/
theorem loadConnections_env_spec_witness :
    ∃ c, loadConnections emptyEnv "goerli" false true = .ok c ∧
      c.providerUrl = none ∧ c.privateKey = none := by
  obtain ⟨c, hc, hnone, _, htest⟩ :=
    (loadConnections_env_spec emptyEnv "goerli" true (by decide)).1 rfl
  exact ⟨c, hc, hnone rfl rfl, htest (by decide)⟩

/-- Claim C7: serializing a well-formed owner-action ledger with
`stringify` and parsing the output with `JSON.parse` reproduces the
same keys, with every value transformed by the replacer alone — each
BigNumber-shaped value rendered as its decimal string, everything else
unchanged — and the serialized form is the tab-indented rendering
followed by a trailing newline. -/
theorem stringify_ledger_roundtrip (fs : JsonFields)
    (hg : goodJ (.obj fs) = true) (hbn : isBNShapeF fs = false) :
    ∃ fs2 out, transformF fs = .ok fs2 ∧ fkeys fs2 = fkeys fs ∧
      stringify (.obj fs) = .ok out ∧
      jsonParse out = some (.obj fs2) ∧
      out = (⟨serJ 0 (.obj fs2) ++ ['\n']⟩ : String) ∧
      out.data.getLast? = some '\n' := by
  obtain ⟨t, ht, hs, hp⟩ := stringify_roundtrip (.obj fs) hg
  rw [transformE, if_neg (by rw [hbn]; simp)] at ht
  cases hf2 : transformF fs with
  | error e => rw [hf2] at ht; exact absurd ht (by simp [Except.map])
  | ok fs2 =>
      rw [hf2] at ht
      have ht2 : t = .obj fs2 := by
        simp only [Except.map_ok] at ht
        exact (Except.ok.inj ht).symm
      subst ht2
      have hgf : goodF fs = true := by
        rw [goodJ, if_neg (by rw [hbn]; simp), Bool.and_eq_true] at hg
        exact hg.2
      obtain ⟨fs2b, hfs2b, _, hkeysb⟩ := transformF_good fs hgf
      have heq : fs2b = fs2 := by
        rw [hfs2b] at hf2
        exact Except.ok.inj hf2
      rw [heq] at hkeysb
      refine ⟨fs2, _, rfl, hkeysb, hs, hp, rfl, ?_⟩
      show (serJ 0 (.obj fs2) ++ ['\n']).getLast? = some '\n'
      simp

/-! ## Claims: gas options -/

theorem objectAssignTx_empty (tx : Tx) :
    objectAssignTx ⟨none, none, none⟩ tx = tx := by
  obtain ⟨t, m, p, o⟩ := tx
  simp only [objectAssignTx]
  cases t <;> cases m <;> cases p <;> rfl

theorem objectAssignTx_fields (g : GasOptions) (tx : Tx) :
    (∀ t, tx.type = some t → (objectAssignTx g tx).type = some t) ∧
    (∀ t, tx.maxFeePerGas = some t → (objectAssignTx g tx).maxFeePerGas = some t) ∧
    (∀ t, tx.maxPriorityFeePerGas = some t →
      (objectAssignTx g tx).maxPriorityFeePerGas = some t) ∧
    (objectAssignTx g tx).other = tx.other := by
  refine ⟨?_, ?_, ?_, rfl⟩ <;> intro t ht <;> simp [objectAssignTx, ht]

theorem assignGasOptions_shape (tx : Tx) (fdr : Except JsError FeeData)
    (p1 p2 : Option String) (res : Tx)
    (h : assignGasOptions tx fdr p1 p2 = .ok res) :
    ∃ g, res = objectAssignTx g tx := by
  rw [assignGasOptions.eq_def] at h
  simp only [bind, Except.bind, pure, Except.pure] at h
  repeat' split at h
  all_goals
    first
      | exact ⟨_, (Except.ok.inj h).symm⟩
      | exact absurd h (by simp)

/-- Claim C6: when the provider's fee-data query throws or the fee data
has no `maxFeePerGas`, `assignGasOptions` resolves to exactly the
caller's transaction object; and whenever gas fields are computed, any
field of the same name supplied by the caller takes precedence, with
the transaction's other properties passed through unchanged. -/
theorem assignGasOptions_spec (tx : Tx) (fdr : Except JsError FeeData)
    (p1 p2 : Option String) :
    ((∃ e, fdr = .error e) ∨ (∃ fd, fdr = .ok fd ∧ fd.maxFeePerGas = none) →
      assignGasOptions tx fdr p1 p2 = .ok tx) ∧
    (∀ res, assignGasOptions tx fdr p1 p2 = .ok res →
      (∀ t, tx.type = some t → res.type = some t) ∧
      (∀ t, tx.maxFeePerGas = some t → res.maxFeePerGas = some t) ∧
      (∀ t, tx.maxPriorityFeePerGas = some t → res.maxPriorityFeePerGas = some t) ∧
      res.other = tx.other) := by
  constructor
  · intro hcase
    rcases hcase with ⟨e, rfl⟩ | ⟨fd, rfl, hfd⟩
    · rw [assignGasOptions.eq_def]
      simp only [bind, Except.bind, pure, Except.pure]
      rw [if_neg (by simp)]
      rw [objectAssignTx_empty]
    · rw [assignGasOptions.eq_def]
      simp only [bind, Except.bind, pure, Except.pure]
      rw [if_neg (by simp [hfd])]
      rw [objectAssignTx_empty]
  · intro res h
    obtain ⟨g, rfl⟩ := assignGasOptions_shape tx fdr p1 p2 res h
    exact objectAssignTx_fields g tx

/-- Witness for claim C6: a failing fee-data query returns the
transaction unchanged. -/
theorem assignGasOptions_spec_witness :
    assignGasOptions ⟨none, some 7, none, []⟩ (.error ⟨"eth_feeData unsupported"⟩)
      (some "2") none = .ok ⟨none, some 7, none, []⟩ :=
  (assignGasOptions_spec ⟨none, some 7, none, []⟩ (.error ⟨"eth_feeData unsupported"⟩)
    (some "2") none).1 (Or.inl ⟨_, rfl⟩)

/-! ## Claims: the bulk loader -/

theorem strEq_of_data {a b : String} (h : a.data = b.data) : a = b := by
  cases a
  cases b
  exact congrArg String.mk h

theorem pathJoin_inj {d a b : String} (h : pathJoin d a = pathJoin d b) : a = b := by
  have h2 := congrArg String.data h
  simp only [pathJoin, String.data_append, List.append_assoc] at h2
  exact strEq_of_data (List.append_cancel_left (List.append_cancel_left h2))

theorem beqS_false {a b : String} (h : a ≠ b) : (a == b) = false := by
  simp only [beq_eq_false_iff_ne, ne_eq]
  exact h

theorem lookup_map_set (n c : String) : ∀ fs : FS,
    (fs.map (fun p => if p.1 = n then (n, c) else p)).lookup n =
      (fs.lookup n).map (fun _ => c)
  | [] => rfl
  | (k, v) :: rest => by
      rw [List.map_cons]
      by_cases hk : k = n
      · subst hk
        rw [if_pos rfl, List.lookup_cons_self, List.lookup_cons_self]
        rfl
      · rw [if_neg (by simpa using hk), List.lookup_cons, List.lookup_cons,
          beqS_false (fun he => hk he.symm)]
        exact lookup_map_set n c rest

theorem lookup_map_other {n m : String} (c : String) (h : m ≠ n) : ∀ fs : FS,
    (fs.map (fun p => if p.1 = n then (n, c) else p)).lookup m = fs.lookup m
  | [] => rfl
  | (k, v) :: rest => by
      rw [List.map_cons]
      by_cases hk : k = n
      · subst hk
        rw [if_pos rfl, List.lookup_cons, List.lookup_cons, beqS_false h]
        exact lookup_map_other c h rest
      · rw [if_neg (by simpa using hk), List.lookup_cons, List.lookup_cons]
        cases m == k with
        | true => rfl
        | false => exact lookup_map_other c h rest

theorem lookup_append_none {n : String} (c : String) : ∀ fs : FS,
    fs.lookup n = none → (fs ++ [(n, c)]).lookup n = some c
  | [], _ => by simp [List.lookup_cons]
  | (k, v) :: rest, h => by
      rw [List.cons_append, List.lookup_cons]
      rw [List.lookup_cons] at h
      cases hb : n == k with
      | true => rw [hb] at h; simp at h
      | false =>
          rw [hb] at h
          exact lookup_append_none c rest h

theorem lookup_append_other {n m : String} (c : String) (h : m ≠ n) : ∀ fs : FS,
    (fs ++ [(n, c)]).lookup m = fs.lookup m
  | [] => by simp [List.lookup_cons, beqS_false h]
  | (k, v) :: rest => by
      rw [List.cons_append, List.lookup_cons, List.lookup_cons]
      cases m == k with
      | true => rfl
      | false => exact lookup_append_other c h rest

theorem lookup_writeFileSync_self (fs : FS) (n c : String) :
    (writeFileSync fs n c).lookup n = some c := by
  rw [writeFileSync]
  by_cases hs : (fs.lookup n).isSome = true
  · rw [if_pos hs, lookup_map_set]
    obtain ⟨v, hv⟩ := Option.isSome_iff_exists.mp hs
    rw [hv]
    rfl
  · rw [if_neg hs]
    refine lookup_append_none c fs ?_
    cases hl : fs.lookup n with
    | none => rfl
    | some v => rw [hl] at hs; simp at hs

theorem lookup_writeFileSync_other (fs : FS) {n m : String} (c : String) (h : m ≠ n) :
    (writeFileSync fs n c).lookup m = fs.lookup m := by
  rw [writeFileSync]
  by_cases hs : (fs.lookup n).isSome = true
  · rw [if_pos hs, lookup_map_other c h]
  · rw [if_neg hs, lookup_append_other c h]

theorem readJSON_missing {fs : FS} {n : String} (h : fs.lookup n = none) :
    readJSON fs n = .error ⟨"ENOENT: no such file or directory, open " ++ n⟩ := by
  rw [readJSON.eq_def, readFileSync, h]
  rfl

theorem stringifyE_defaultDeployment :
    stringifyE defaultDeployment = .ok "\x7b\n\t\"targets\": \x7b\x7d,\n\t\"sources\": \x7b\x7d\n\x7d\n" := rfl

theorem stringifyE_emptyObj : stringifyE (Json.obj .nil) = .ok "{}\n" := rfl

theorem JSONparse_defaultText :
    JSONparse "\x7b\n\t\"targets\": \x7b\x7d,\n\t\"sources\": \x7b\x7d\n\x7d\n" = .ok defaultDeployment := rfl

theorem JSONparse_emptyObjText : JSONparse "{}\n" = .ok (Json.obj .nil) := rfl

theorem freshAssign_default :
    (do
      let d1 ← jsAssignField defaultDeployment "targets" (Json.obj .nil)
      jsAssignField d1 "sources" (Json.obj .nil)) = Except.ok defaultDeployment := rfl

theorem flookup_defineProp_self (fs : JsonFields) (k : String) (v : Json) :
    flookup (defineProp fs k v) k = some v := by
  induction fs using fieldsInd with
  | h0 => simp [defineProp, flookup]
  | h1 k2 v2 fs ih =>
      by_cases hk : k2 = k
      · subst hk
        simp [defineProp, flookup]
      · simp [defineProp, flookup, hk, ih]

theorem flookup_defineProp_other (fs : JsonFields) {k k2 : String} (v : Json)
    (h : k2 ≠ k) : flookup (defineProp fs k v) k2 = flookup fs k2 := by
  have hks : ¬(k = k2) := fun he => h he.symm
  induction fs using fieldsInd with
  | h0 => simp [defineProp, flookup, hks]
  | h1 k3 v3 fs ih =>
      by_cases hk : k3 = k
      · subst hk
        simp [defineProp, flookup, hks]
      · simp [defineProp, flookup, hk, ih]

theorem loadAndCheck_ok_elim (fs : FS) (dp nw : String) (fr : Bool)
    (r : LoadedSources) (fs2 : FS)
    (h : loadAndCheckRequiredSources fs dp nw fr = .ok (r, fs2)) :
    ∃ sy st sh cf pa fu ve fe,
      getSynths fs dp = .ok sy ∧ getStakingRewards fs dp = .ok st ∧
      getShortingRewards fs dp = .ok sh ∧
      readJSON fs (pathJoin dp CONFIG_FILENAME) = .ok cf ∧
      readJSON fs (pathJoin dp PARAMS_FILENAME) = .ok pa ∧
      readJSON fs (pathJoin dp FUTURES_MARKETS_FILENAME) = .ok fu ∧
      (if nw ≠ "local" then getVersions fs dp
        else (pure (Json.obj .nil) : Except JsError Json)) = .ok ve ∧
      getFeeds fs dp = .ok fe := by
  rw [loadAndCheckRequiredSources.eq_def] at h
  simp only [bind, Except.bind, pure, Except.pure] at h
  cases e1 : getSynths fs dp with
  | error e => rw [e1] at h; simp at h
  | ok sy =>
  rw [e1] at h
  cases e2 : getStakingRewards fs dp with
  | error e => rw [e2] at h; simp at h
  | ok st =>
  rw [e2] at h
  cases e3 : getShortingRewards fs dp with
  | error e => rw [e3] at h; simp at h
  | ok sh =>
  rw [e3] at h
  cases e4 : readJSON fs (pathJoin dp CONFIG_FILENAME) with
  | error e => rw [e4] at h; simp at h
  | ok cf =>
  rw [e4] at h
  cases e5 : readJSON fs (pathJoin dp PARAMS_FILENAME) with
  | error e => rw [e5] at h; simp at h
  | ok pa =>
  rw [e5] at h
  cases e6 : readJSON fs (pathJoin dp FUTURES_MARKETS_FILENAME) with
  | error e => rw [e6] at h; simp at h
  | ok fu =>
  rw [e6] at h
  dsimp only at h
  by_cases hl : nw = "local"
  · rw [if_neg (fun hc => hc hl)] at h
    cases e8 : getFeeds fs dp with
    | error e => rw [e8] at h; simp at h
    | ok fe =>
      exact ⟨sy, st, sh, cf, pa, fu, Json.obj .nil, fe, rfl, rfl, rfl, rfl, rfl, rfl,
        by rw [if_neg (fun hc => hc hl)]; rfl, rfl⟩
  · rw [if_pos hl] at h
    cases e7 : getVersions fs dp with
    | error e => rw [e7] at h; simp at h
    | ok ve =>
    rw [e7] at h
    cases e8 : getFeeds fs dp with
    | error e => rw [e8] at h; simp at h
    | ok fe =>
      exact ⟨sy, st, sh, cf, pa, fu, ve, fe, rfl, rfl, rfl, rfl, rfl, rfl,
        by rw [if_pos hl], rfl⟩

theorem loadAndCheck_eq_tail (fs : FS) (dp nw : String) (fr : Bool) :
    loadAndCheckRequiredSources fs dp nw fr = (do
      let synths ← getSynths fs dp
      let stakingRewards ← getStakingRewards fs dp
      let shortingRewards ← getShortingRewards fs dp
      let config ← readJSON fs (pathJoin dp CONFIG_FILENAME)
      let params ← readJSON fs (pathJoin dp PARAMS_FILENAME)
      let futuresMarkets ← readJSON fs (pathJoin dp FUTURES_MARKETS_FILENAME)
      let versions ←
        if nw ≠ "local" then getVersions fs dp
        else pure (Json.obj .nil)
      let feeds ← getFeeds fs dp
      loadTail fs dp fr synths stakingRewards shortingRewards config params
        futuresMarkets versions feeds) := rfl

theorem loadTail_defaults (fs : FS) (dp : String) (freshDeploy : Bool)
    (sy st sh cf pa fu ve fe : Json)
    (hdep : fs.lookup (pathJoin dp DEPLOYMENT_FILENAME) = none ∨
      ∃ s dfs, fs.lookup (pathJoin dp DEPLOYMENT_FILENAME) = some s ∧
        JSONparse s = .ok (.obj dfs))
    (hoa : fs.lookup (pathJoin dp OWNER_ACTIONS_FILENAME) = none ∨
      ∃ s2 oa, fs.lookup (pathJoin dp OWNER_ACTIONS_FILENAME) = some s2 ∧
        JSONparse s2 = .ok oa) :
    ∃ r fs2, loadTail fs dp freshDeploy sy st sh cf pa fu ve fe = .ok (r, fs2) ∧
      (fs.lookup (pathJoin dp DEPLOYMENT_FILENAME) = none →
        r.deployment = defaultDeployment ∧
        fs2.lookup (pathJoin dp DEPLOYMENT_FILENAME) =
          some "\x7b\n\t\"targets\": \x7b\x7d,\n\t\"sources\": \x7b\x7d\n\x7d\n") ∧
      (fs.lookup (pathJoin dp OWNER_ACTIONS_FILENAME) = none →
        r.ownerActions = Json.obj .nil ∧
        fs2.lookup (pathJoin dp OWNER_ACTIONS_FILENAME) = some "\x7b\x7d\n") := by
  have hod : pathJoin dp OWNER_ACTIONS_FILENAME ≠ pathJoin dp DEPLOYMENT_FILENAME :=
    fun he => (by decide : ¬(OWNER_ACTIONS_FILENAME = DEPLOYMENT_FILENAME))
      (pathJoin_inj he)
  have hdo : pathJoin dp DEPLOYMENT_FILENAME ≠ pathJoin dp OWNER_ACTIONS_FILENAME :=
    fun he => (by decide : ¬(DEPLOYMENT_FILENAME = OWNER_ACTIONS_FILENAME))
      (pathJoin_inj he)
  have ha1 : jsAssignField defaultDeployment "targets" (Json.obj .nil) =
      .ok defaultDeployment := rfl
  have ha2 : jsAssignField defaultDeployment "sources" (Json.obj .nil) =
      .ok defaultDeployment := rfl
  rw [loadTail.eq_def]
  simp only [bind, Except.bind, pure, Except.pure]
  rcases hdep with hdn | ⟨s, dfs, hs, hps⟩
  · have he9 : existsSync fs (pathJoin dp DEPLOYMENT_FILENAME) = false := by
      rw [existsSync, hdn]; rfl
    have hrd : readJSON
        (writeFileSync fs (pathJoin dp DEPLOYMENT_FILENAME)
          "\x7b\n\t\"targets\": \x7b\x7d,\n\t\"sources\": \x7b\x7d\n\x7d\n")
        (pathJoin dp DEPLOYMENT_FILENAME) = .ok defaultDeployment := by
      rw [readJSON.eq_def, readFileSync, lookup_writeFileSync_self]
      simp only [bind, Except.bind]
      exact JSONparse_defaultText
    rcases hoa with hoan | ⟨s2, oa, hs2, hps2⟩
    · have he11 : existsSync
          (writeFileSync fs (pathJoin dp DEPLOYMENT_FILENAME)
            "\x7b\n\t\"targets\": \x7b\x7d,\n\t\"sources\": \x7b\x7d\n\x7d\n")
          (pathJoin dp OWNER_ACTIONS_FILENAME) = false := by
        rw [existsSync, lookup_writeFileSync_other fs _ hod, hoan]; rfl
      have hroa : readJSON
          (writeFileSync
            (writeFileSync fs (pathJoin dp DEPLOYMENT_FILENAME)
              "\x7b\n\t\"targets\": \x7b\x7d,\n\t\"sources\": \x7b\x7d\n\x7d\n")
            (pathJoin dp OWNER_ACTIONS_FILENAME) "\x7b\x7d\n")
          (pathJoin dp OWNER_ACTIONS_FILENAME) = .ok (Json.obj .nil) := by
        rw [readJSON.eq_def, readFileSync, lookup_writeFileSync_self]
        simp only [bind, Except.bind]
        exact JSONparse_emptyObjText
      repeat (first | simp only [he9, he11, hrd, hroa, ha1, ha2, Bool.false_eq_true, eq_self_iff_true, if_false, if_true, ite_self, stringifyE_defaultDeployment, stringifyE_emptyObj] | dsimp only)
      refine ⟨_, _, rfl, fun _ => ⟨rfl, ?_⟩, fun _ => ⟨rfl, ?_⟩⟩
      · rw [lookup_writeFileSync_other _ _ hdo, lookup_writeFileSync_self]
      · rw [lookup_writeFileSync_self]
    · have he11 : existsSync
          (writeFileSync fs (pathJoin dp DEPLOYMENT_FILENAME)
            "\x7b\n\t\"targets\": \x7b\x7d,\n\t\"sources\": \x7b\x7d\n\x7d\n")
          (pathJoin dp OWNER_ACTIONS_FILENAME) = true := by
        rw [existsSync, lookup_writeFileSync_other fs _ hod, hs2]; rfl
      have hroa2 : readJSON
          (writeFileSync fs (pathJoin dp DEPLOYMENT_FILENAME)
            "\x7b\n\t\"targets\": \x7b\x7d,\n\t\"sources\": \x7b\x7d\n\x7d\n")
          (pathJoin dp OWNER_ACTIONS_FILENAME) = .ok oa := by
        rw [readJSON.eq_def, readFileSync, lookup_writeFileSync_other fs _ hod, hs2]
        simp only [bind, Except.bind]
        exact hps2
      repeat (first | simp only [he9, he11, hrd, hroa2, ha1, ha2, Bool.false_eq_true, eq_self_iff_true, if_false, if_true, ite_self, stringifyE_defaultDeployment] | dsimp only)
      refine ⟨_, _, rfl, fun _ => ⟨rfl, ?_⟩, fun hn => absurd hn (by rw [hs2]; simp)⟩
      · rw [lookup_writeFileSync_self]
  · have he9 : existsSync fs (pathJoin dp DEPLOYMENT_FILENAME) = true := by
      rw [existsSync, hs]; rfl
    have hrdj : readJSON fs (pathJoin dp DEPLOYMENT_FILENAME) = .ok (.obj dfs) := by
      rw [readJSON.eq_def, readFileSync, hs]
      simp only [bind, Except.bind]
      exact hps
    cases freshDeploy with
    | true =>
      rcases hoa with hoan | ⟨s2, oa, hs2, hps2⟩
      · have he11 : existsSync fs (pathJoin dp OWNER_ACTIONS_FILENAME) = false := by
          rw [existsSync, hoan]; rfl
        have hroa : readJSON
            (writeFileSync fs (pathJoin dp OWNER_ACTIONS_FILENAME) "\x7b\x7d\n")
            (pathJoin dp OWNER_ACTIONS_FILENAME) = .ok (Json.obj .nil) := by
          rw [readJSON.eq_def, readFileSync, lookup_writeFileSync_self]
          simp only [bind, Except.bind]
          exact JSONparse_emptyObjText
        repeat (first | simp only [he9, he11, hrdj, hroa, jsAssignField, Bool.false_eq_true, eq_self_iff_true, if_false, if_true, stringifyE_emptyObj] | dsimp only)
        refine ⟨_, _, rfl, fun hn => absurd hn (by rw [hs]; simp), fun _ => ⟨rfl, ?_⟩⟩
        · rw [lookup_writeFileSync_self]
      · have he11 : existsSync fs (pathJoin dp OWNER_ACTIONS_FILENAME) = true := by
          rw [existsSync, hs2]; rfl
        have hroa2 : readJSON fs (pathJoin dp OWNER_ACTIONS_FILENAME) = .ok oa := by
          rw [readJSON.eq_def, readFileSync, hs2]
          simp only [bind, Except.bind]
          exact hps2
        repeat (first | simp only [he9, he11, hrdj, hroa2, jsAssignField, Bool.false_eq_true, eq_self_iff_true, if_false, if_true] | dsimp only)
        exact ⟨_, _, rfl, fun hn => absurd hn (by rw [hs]; simp),
          fun hn => absurd hn (by rw [hs2]; simp)⟩
    | false =>
      rcases hoa with hoan | ⟨s2, oa, hs2, hps2⟩
      · have he11 : existsSync fs (pathJoin dp OWNER_ACTIONS_FILENAME) = false := by
          rw [existsSync, hoan]; rfl
        have hroa : readJSON
            (writeFileSync fs (pathJoin dp OWNER_ACTIONS_FILENAME) "\x7b\x7d\n")
            (pathJoin dp OWNER_ACTIONS_FILENAME) = .ok (Json.obj .nil) := by
          rw [readJSON.eq_def, readFileSync, lookup_writeFileSync_self]
          simp only [bind, Except.bind]
          exact JSONparse_emptyObjText
        repeat (first | simp only [he9, he11, hrdj, hroa, Bool.false_eq_true, eq_self_iff_true, if_false, if_true, stringifyE_emptyObj] | dsimp only)
        refine ⟨_, _, rfl, fun hn => absurd hn (by rw [hs]; simp), fun _ => ⟨rfl, ?_⟩⟩
        · rw [lookup_writeFileSync_self]
      · have he11 : existsSync fs (pathJoin dp OWNER_ACTIONS_FILENAME) = true := by
          rw [existsSync, hs2]; rfl
        have hroa2 : readJSON fs (pathJoin dp OWNER_ACTIONS_FILENAME) = .ok oa := by
          rw [readJSON.eq_def, readFileSync, hs2]
          simp only [bind, Except.bind]
          exact hps2
        repeat (first | simp only [he9, he11, hrdj, hroa2, Bool.false_eq_true, eq_self_iff_true, if_false, if_true] | dsimp only)
        exact ⟨_, _, rfl, fun hn => absurd hn (by rw [hs]; simp),
          fun hn => absurd hn (by rw [hs2]; simp)⟩

/-- Claim C3: when every required input file is readable and the
deployment record and/or the owner-action ledger is absent (any present
one holding well-formed JSON, an object for the deployment record), the
load succeeds, returns the empty default structure for each absent file
and creates that file on disk with the default shape; and these two are
the only files treated this way: the absence of any other required
input file makes loading fail. -/
theorem loadAndCheck_default_spec (fs : FS) (dp network : String) (freshDeploy : Bool)
    (sy st sh cf pa fu ve fe : Json)
    (h1 : getSynths fs dp = .ok sy)
    (h2 : getStakingRewards fs dp = .ok st)
    (h3 : getShortingRewards fs dp = .ok sh)
    (h4 : readJSON fs (pathJoin dp CONFIG_FILENAME) = .ok cf)
    (h5 : readJSON fs (pathJoin dp PARAMS_FILENAME) = .ok pa)
    (h6 : readJSON fs (pathJoin dp FUTURES_MARKETS_FILENAME) = .ok fu)
    (hv : (if network ≠ "local" then getVersions fs dp
      else (pure (Json.obj .nil) : Except JsError Json)) = .ok ve)
    (h8 : getFeeds fs dp = .ok fe)
    (hdep : fs.lookup (pathJoin dp DEPLOYMENT_FILENAME) = none ∨
      ∃ s dfs, fs.lookup (pathJoin dp DEPLOYMENT_FILENAME) = some s ∧
        JSONparse s = .ok (.obj dfs))
    (hoa : fs.lookup (pathJoin dp OWNER_ACTIONS_FILENAME) = none ∨
      ∃ s2 oa, fs.lookup (pathJoin dp OWNER_ACTIONS_FILENAME) = some s2 ∧
        JSONparse s2 = .ok oa) :
    (∃ r fs2, loadAndCheckRequiredSources fs dp network freshDeploy = .ok (r, fs2) ∧
      (fs.lookup (pathJoin dp DEPLOYMENT_FILENAME) = none →
        r.deployment = defaultDeployment ∧
        fs2.lookup (pathJoin dp DEPLOYMENT_FILENAME) =
          some "\x7b\n\t\"targets\": \x7b\x7d,\n\t\"sources\": \x7b\x7d\n\x7d\n") ∧
      (fs.lookup (pathJoin dp OWNER_ACTIONS_FILENAME) = none →
        r.ownerActions = Json.obj .nil ∧
        fs2.lookup (pathJoin dp OWNER_ACTIONS_FILENAME) = some "\x7b\x7d\n")) ∧
    (∀ (fs3 : FS) (f : String), f ∈ requiredInputFiles network →
      fs3.lookup (pathJoin dp f) = none →
      ∀ r2, loadAndCheckRequiredSources fs3 dp network freshDeploy ≠ .ok r2) := by
  constructor
  · rw [loadAndCheck_eq_tail]
    simp only [h1, h2, h3, h4, h5, h6, h8, bind, Except.bind, pure, Except.pure]
    by_cases hl : network = "local"
    · rw [if_neg (fun hc => hc hl)]
      exact loadTail_defaults fs dp freshDeploy sy st sh cf pa fu (Json.obj .nil) fe
        hdep hoa
    · rw [if_pos hl] at hv
      rw [if_pos hl, hv]
      dsimp only
      exact loadTail_defaults fs dp freshDeploy sy st sh cf pa fu ve fe hdep hoa
  · intro fs3 f hf hmiss r2 hok
    obtain ⟨sy2, st2, sh2, cf2, pa2, fu2, ve2, fe2, e1, e2, e3, e4, e5, e6, e7, e8⟩ :=
      loadAndCheck_ok_elim fs3 dp network freshDeploy r2.1 r2.2 (by rw [← hok])
    rw [requiredInputFiles] at hf
    rcases List.mem_append.mp hf with hf1 | hfeeds
    · rcases List.mem_append.mp hf1 with hf6 | hfv
      · simp only [List.mem_cons, List.not_mem_nil, or_false] at hf6
        rcases hf6 with rfl | rfl | rfl | rfl | rfl | rfl
        · rw [getSynths, readJSON_missing hmiss] at e1
          exact absurd e1 (by simp)
        · rw [getStakingRewards, readJSON_missing hmiss] at e2
          exact absurd e2 (by simp)
        · rw [getShortingRewards, readJSON_missing hmiss] at e3
          exact absurd e3 (by simp)
        · rw [readJSON_missing hmiss] at e4
          exact absurd e4 (by simp)
        · rw [readJSON_missing hmiss] at e5
          exact absurd e5 (by simp)
        · rw [readJSON_missing hmiss] at e6
          exact absurd e6 (by simp)
      · by_cases hl : network = "local"
        · rw [if_neg (by simp [hl])] at hfv
          exact absurd hfv (List.not_mem_nil f)
        · rw [if_pos (by simp [hl] : network ≠ "local")] at hfv
          rw [List.mem_singleton] at hfv
          subst hfv
          rw [if_pos (by simp [hl] : network ≠ "local"), getVersions,
            readJSON_missing hmiss] at e7
          exact absurd e7 (by simp)
    · rw [List.mem_singleton] at hfeeds
      subst hfeeds
      rw [getFeeds, readJSON_missing hmiss] at e8
      exact absurd e8 (by simp)

/-- Witness for claim C3: on a concrete directory holding all eight
input files and the owner-action ledger but no deployment record,
loading succeeds with the default deployment structure and creates the
deployment-record file. -/
theorem loadAndCheck_default_spec_witness :
    ∃ r fs2, loadAndCheckRequiredSources oaPresentFS "deployed/mainnet" "mainnet"
        false = .ok (r, fs2) ∧
      r.deployment = defaultDeployment ∧
      fs2.lookup (pathJoin "deployed/mainnet" DEPLOYMENT_FILENAME) =
        some "\x7b\n\t\"targets\": \x7b\x7d,\n\t\"sources\": \x7b\x7d\n\x7d\n" := by
  obtain ⟨⟨r, fs2, hok, hd, ho⟩, _⟩ := loadAndCheck_default_spec oaPresentFS
    "deployed/mainnet" "mainnet" false (.arr .nil) (.arr .nil) (.arr .nil)
    (.obj .nil) (.obj .nil) (.arr .nil) (.obj .nil) (.obj .nil)
    rfl rfl rfl rfl rfl rfl rfl rfl
    (Or.inl rfl) (Or.inr ⟨"\x7b\x7d", Json.obj .nil, rfl, rfl⟩)
  exact ⟨r, fs2, hok, (hd rfl).1, (hd rfl).2⟩

theorem loadTail_fresh (fs : FS) (dp : String)
    (sy st sh cf pa fu ve fe : Json) (r : LoadedSources) (fs2 : FS)
    (hdep : ∀ s, fs.lookup (pathJoin dp DEPLOYMENT_FILENAME) = some s →
      ∃ dfs, JSONparse s = .ok (.obj dfs))
    (h : loadTail fs dp false sy st sh cf pa fu ve fe = .ok (r, fs2)) :
    ∃ r2, loadTail fs dp true sy st sh cf pa fu ve fe = .ok (r2, fs2) ∧
      (∃ dfs2, r2.deployment = .obj dfs2 ∧
        flookup dfs2 "targets" = some (.obj .nil) ∧
        flookup dfs2 "sources" = some (.obj .nil)) ∧
      r2.config = r.config ∧ r2.params = r.params ∧ r2.synths = r.synths ∧
      r2.stakingRewards = r.stakingRewards ∧
      r2.shortingRewards = r.shortingRewards ∧
      r2.futuresMarkets = r.futuresMarkets ∧ r2.ownerActions = r.ownerActions ∧
      r2.versions = r.versions ∧ r2.feeds = r.feeds ∧
      r2.configFile = r.configFile ∧ r2.synthsFile = r.synthsFile ∧
      r2.stakingRewardsFile = r.stakingRewardsFile ∧
      r2.shortingRewardsFile = r.shortingRewardsFile ∧
      r2.futuresMarketsFile = r.futuresMarketsFile ∧
      r2.deploymentFile = r.deploymentFile ∧
      r2.ownerActionsFile = r.ownerActionsFile ∧
      r2.versionsFile = r.versionsFile ∧ r2.feedsFile = r.feedsFile := by
  rw [loadTail.eq_def] at h ⊢
  simp only [bind, Except.bind, pure, Except.pure] at h ⊢
  cases e9 : existsSync fs (pathJoin dp DEPLOYMENT_FILENAME) with
  | true =>
    rw [e9] at h
    repeat (first | simp only [Bool.false_eq_true, eq_self_iff_true, if_false, if_true] at h | dsimp only at h)
    obtain ⟨s, hs⟩ := Option.isSome_iff_exists.mp (by rw [existsSync] at e9; exact e9)
    obtain ⟨dfs, hps⟩ := hdep s hs
    have hrdj : readJSON fs (pathJoin dp DEPLOYMENT_FILENAME) = .ok (.obj dfs) := by
      rw [readJSON.eq_def, readFileSync, hs]
      simp only [bind, Except.bind]
      exact hps
    rw [hrdj] at h
    repeat (first | simp only [Bool.false_eq_true, eq_self_iff_true, if_false, if_true] at h | dsimp only at h)
    cases e11 : existsSync fs (pathJoin dp OWNER_ACTIONS_FILENAME) with
    | true =>
      rw [e11] at h
      repeat (first | simp only [Bool.false_eq_true, eq_self_iff_true, if_false, if_true] at h | dsimp only at h)
      cases e12 : readJSON fs (pathJoin dp OWNER_ACTIONS_FILENAME) with
      | error e => rw [e12] at h; simp at h
      | ok oa =>
      rw [e12] at h
      repeat (first | simp only [Bool.false_eq_true, eq_self_iff_true, if_false, if_true] at h | dsimp only at h)
      obtain ⟨hr, hf⟩ := Prod.mk.inj (Except.ok.inj h)
      subst hr; subst hf
      repeat (first | simp only [Bool.false_eq_true, eq_self_iff_true, if_false, if_true, stringifyE_defaultDeployment, stringifyE_emptyObj, jsAssignField] | dsimp only)
      rw [hrdj]; repeat (first | simp only [Bool.false_eq_true, eq_self_iff_true, if_false, if_true, stringifyE_defaultDeployment, stringifyE_emptyObj, jsAssignField] | dsimp only)
      refine ⟨_, rfl, ⟨_, rfl, ?_, ?_⟩, rfl, rfl, rfl, rfl, rfl, rfl, rfl, rfl,
        rfl, rfl, rfl, rfl, rfl, rfl, rfl, rfl, rfl, rfl⟩
      · rw [flookup_defineProp_other _ _ (by decide), flookup_defineProp_self]
      · rw [flookup_defineProp_self]
    | false =>
      rw [e11] at h
      repeat (first | simp only [Bool.false_eq_true, eq_self_iff_true, if_false, if_true, stringifyE_emptyObj] at h | dsimp only at h)
      cases e12 : readJSON (writeFileSync fs (pathJoin dp OWNER_ACTIONS_FILENAME)
          "{}\n") (pathJoin dp OWNER_ACTIONS_FILENAME) with
      | error e => rw [e12] at h; simp at h
      | ok oa =>
      rw [e12] at h
      repeat (first | simp only [Bool.false_eq_true, eq_self_iff_true, if_false, if_true] at h | dsimp only at h)
      obtain ⟨hr, hf⟩ := Prod.mk.inj (Except.ok.inj h)
      subst hr; subst hf
      repeat (first | simp only [Bool.false_eq_true, eq_self_iff_true, if_false, if_true, stringifyE_defaultDeployment, stringifyE_emptyObj, jsAssignField] | dsimp only)
      rw [hrdj]; repeat (first | simp only [Bool.false_eq_true, eq_self_iff_true, if_false, if_true, stringifyE_defaultDeployment, stringifyE_emptyObj, jsAssignField] | dsimp only)
      rw [e12]; repeat (first | simp only [Bool.false_eq_true, eq_self_iff_true, if_false, if_true, stringifyE_defaultDeployment, stringifyE_emptyObj, jsAssignField] | dsimp only)
      refine ⟨_, rfl, ⟨_, rfl, ?_, ?_⟩, rfl, rfl, rfl, rfl, rfl, rfl, rfl, rfl,
        rfl, rfl, rfl, rfl, rfl, rfl, rfl, rfl, rfl, rfl⟩
      · rw [flookup_defineProp_other _ _ (by decide), flookup_defineProp_self]
      · rw [flookup_defineProp_self]
  | false =>
    rw [e9] at h
    repeat (first | simp only [Bool.false_eq_true, eq_self_iff_true, if_false, if_true, stringifyE_defaultDeployment] at h | dsimp only at h)
    have hrd : readJSON
        (writeFileSync fs (pathJoin dp DEPLOYMENT_FILENAME)
          "\x7b\n\t\"targets\": \x7b\x7d,\n\t\"sources\": \x7b\x7d\n\x7d\n")
        (pathJoin dp DEPLOYMENT_FILENAME) = .ok defaultDeployment := by
      rw [readJSON.eq_def, readFileSync, lookup_writeFileSync_self]
      simp only [bind, Except.bind]
      exact JSONparse_defaultText
    rw [hrd] at h
    repeat (first | simp only [Bool.false_eq_true, eq_self_iff_true, if_false, if_true] at h | dsimp only at h)
    cases e11 : existsSync
        (writeFileSync fs (pathJoin dp DEPLOYMENT_FILENAME)
          "\x7b\n\t\"targets\": \x7b\x7d,\n\t\"sources\": \x7b\x7d\n\x7d\n")
        (pathJoin dp OWNER_ACTIONS_FILENAME) with
    | true =>
      rw [e11] at h
      repeat (first | simp only [Bool.false_eq_true, eq_self_iff_true, if_false, if_true] at h | dsimp only at h)
      cases e12 : readJSON
          (writeFileSync fs (pathJoin dp DEPLOYMENT_FILENAME)
            "\x7b\n\t\"targets\": \x7b\x7d,\n\t\"sources\": \x7b\x7d\n\x7d\n")
          (pathJoin dp OWNER_ACTIONS_FILENAME) with
      | error e => rw [e12] at h; simp at h
      | ok oa =>
      rw [e12] at h
      repeat (first | simp only [Bool.false_eq_true, eq_self_iff_true, if_false, if_true] at h | dsimp only at h)
      obtain ⟨hr, hf⟩ := Prod.mk.inj (Except.ok.inj h)
      subst hr; subst hf
      repeat (first | simp only [Bool.false_eq_true, eq_self_iff_true, if_false, if_true, stringifyE_defaultDeployment, stringifyE_emptyObj, jsAssignField] | dsimp only)
      rw [hrd]; repeat (first | simp only [Bool.false_eq_true, eq_self_iff_true, if_false, if_true, stringifyE_defaultDeployment, stringifyE_emptyObj, jsAssignField] | dsimp only)
      rw [e11]; repeat (first | simp only [Bool.false_eq_true, eq_self_iff_true, if_false, if_true, stringifyE_defaultDeployment, stringifyE_emptyObj, jsAssignField] | dsimp only)
      rw [e12]; repeat (first | simp only [Bool.false_eq_true, eq_self_iff_true, if_false, if_true, stringifyE_defaultDeployment, stringifyE_emptyObj, jsAssignField] | dsimp only)
      refine ⟨_, rfl, ⟨_, rfl, rfl, rfl⟩, rfl, rfl, rfl, rfl, rfl, rfl, rfl, rfl,
        rfl, rfl, rfl, rfl, rfl, rfl, rfl, rfl, rfl, rfl⟩
    | false =>
      rw [e11] at h
      repeat (first | simp only [Bool.false_eq_true, eq_self_iff_true, if_false, if_true, stringifyE_emptyObj] at h | dsimp only at h)
      cases e12 : readJSON
          (writeFileSync
            (writeFileSync fs (pathJoin dp DEPLOYMENT_FILENAME)
              "\x7b\n\t\"targets\": \x7b\x7d,\n\t\"sources\": \x7b\x7d\n\x7d\n")
            (pathJoin dp OWNER_ACTIONS_FILENAME) "{}\n")
          (pathJoin dp OWNER_ACTIONS_FILENAME) with
      | error e => rw [e12] at h; simp at h
      | ok oa =>
      rw [e12] at h
      repeat (first | simp only [Bool.false_eq_true, eq_self_iff_true, if_false, if_true] at h | dsimp only at h)
      obtain ⟨hr, hf⟩ := Prod.mk.inj (Except.ok.inj h)
      subst hr; subst hf
      repeat (first | simp only [Bool.false_eq_true, eq_self_iff_true, if_false, if_true, stringifyE_defaultDeployment, stringifyE_emptyObj, jsAssignField] | dsimp only)
      rw [hrd]; repeat (first | simp only [Bool.false_eq_true, eq_self_iff_true, if_false, if_true, stringifyE_defaultDeployment, stringifyE_emptyObj, jsAssignField] | dsimp only)
      rw [e11]; repeat (first | simp only [Bool.false_eq_true, eq_self_iff_true, if_false, if_true, stringifyE_defaultDeployment, stringifyE_emptyObj, jsAssignField] | dsimp only)
      rw [e12]; repeat (first | simp only [Bool.false_eq_true, eq_self_iff_true, if_false, if_true, stringifyE_defaultDeployment, stringifyE_emptyObj, jsAssignField] | dsimp only)
      refine ⟨_, rfl, ⟨_, rfl, rfl, rfl⟩, rfl, rfl, rfl, rfl, rfl, rfl, rfl, rfl,
        rfl, rfl, rfl, rfl, rfl, rfl, rfl, rfl, rfl, rfl⟩

/-- Claim C4 (corrected): whenever the deployment-record file is absent
or holds JSON text parsing to an object, a `freshDeploy=true` call
returns a deployment object whose targets and sources mappings are
empty, while the filesystem outcome and every other field of the
aggregate are identical to what the same call with `freshDeploy=false`
returns. -/
theorem loadAndCheck_freshDeploy_spec (fs : FS) (dp network : String)
    (r : LoadedSources) (fs2 : FS)
    (hdep : ∀ s, fs.lookup (pathJoin dp DEPLOYMENT_FILENAME) = some s →
      ∃ dfs, JSONparse s = .ok (.obj dfs))
    (h : loadAndCheckRequiredSources fs dp network false = .ok (r, fs2)) :
    ∃ r2, loadAndCheckRequiredSources fs dp network true = .ok (r2, fs2) ∧
      (∃ dfs2, r2.deployment = .obj dfs2 ∧
        flookup dfs2 "targets" = some (.obj .nil) ∧
        flookup dfs2 "sources" = some (.obj .nil)) ∧
      r2.config = r.config ∧ r2.params = r.params ∧ r2.synths = r.synths ∧
      r2.stakingRewards = r.stakingRewards ∧
      r2.shortingRewards = r.shortingRewards ∧
      r2.futuresMarkets = r.futuresMarkets ∧ r2.ownerActions = r.ownerActions ∧
      r2.versions = r.versions ∧ r2.feeds = r.feeds ∧
      r2.configFile = r.configFile ∧ r2.synthsFile = r.synthsFile ∧
      r2.stakingRewardsFile = r.stakingRewardsFile ∧
      r2.shortingRewardsFile = r.shortingRewardsFile ∧
      r2.futuresMarketsFile = r.futuresMarketsFile ∧
      r2.deploymentFile = r.deploymentFile ∧
      r2.ownerActionsFile = r.ownerActionsFile ∧
      r2.versionsFile = r.versionsFile ∧ r2.feedsFile = r.feedsFile := by
  rw [loadAndCheck_eq_tail] at h ⊢
  simp only [bind, Except.bind, pure, Except.pure] at h ⊢
  cases e1 : getSynths fs dp with
  | error e => rw [e1] at h; simp at h
  | ok sy =>
  rw [e1] at h
  cases e2 : getStakingRewards fs dp with
  | error e => rw [e2] at h; simp at h
  | ok st =>
  rw [e2] at h
  cases e3 : getShortingRewards fs dp with
  | error e => rw [e3] at h; simp at h
  | ok sh =>
  rw [e3] at h
  cases e4 : readJSON fs (pathJoin dp CONFIG_FILENAME) with
  | error e => rw [e4] at h; simp at h
  | ok cf =>
  rw [e4] at h
  cases e5 : readJSON fs (pathJoin dp PARAMS_FILENAME) with
  | error e => rw [e5] at h; simp at h
  | ok pa =>
  rw [e5] at h
  cases e6 : readJSON fs (pathJoin dp FUTURES_MARKETS_FILENAME) with
  | error e => rw [e6] at h; simp at h
  | ok fu =>
  rw [e6] at h
  dsimp only at h
  by_cases hl : network = "local"
  · rw [if_neg (fun hc => hc hl)] at h
    cases e8 : getFeeds fs dp with
    | error e => rw [e8] at h; simp at h
    | ok fe =>
    rw [e8] at h
    dsimp only at h
    obtain ⟨r2, ht, hrest⟩ :=
      loadTail_fresh fs dp sy st sh cf pa fu (Json.obj .nil) fe r fs2 hdep h
    dsimp only
    rw [if_neg (fun hc => hc hl)]
    exact ⟨r2, ht, hrest⟩
  · rw [if_pos hl] at h
    cases e7 : getVersions fs dp with
    | error e => rw [e7] at h; simp at h
    | ok ve =>
    rw [e7] at h
    dsimp only at h
    cases e8 : getFeeds fs dp with
    | error e => rw [e8] at h; simp at h
    | ok fe =>
    rw [e8] at h
    dsimp only at h
    obtain ⟨r2, ht, hrest⟩ :=
      loadTail_fresh fs dp sy st sh cf pa fu ve fe r fs2 hdep h
    dsimp only
    rw [if_pos hl]
    exact ⟨r2, ht, hrest⟩

/-- Counterexample to claim C4 as stated: with a deployment-record file
holding the JSON text `null`, the `freshDeploy=false` call succeeds
while the `freshDeploy=true` call throws a TypeError instead of
returning an aggregate with empty targets and sources. -/
theorem loadAndCheck_freshDeploy_counterexample :
    (∃ p, loadAndCheckRequiredSources nullDeploymentFS "deployed/mainnet" "mainnet"
        false = .ok p) ∧
    loadAndCheckRequiredSources nullDeploymentFS "deployed/mainnet" "mainnet" true =
      .error ⟨"TypeError: Cannot create property targets on primitive or null"⟩ :=
  ⟨⟨_, rfl⟩, rfl⟩

/-- Witness for claim C4: on a concrete directory with all input files
and no deployment record, the fresh run returns empty targets and
sources and the same written filesystem as the non-fresh run. -/
theorem loadAndCheck_freshDeploy_spec_witness :
    ∃ r2, loadAndCheckRequiredSources (inputFilesFS "deployed/mainnet")
        "deployed/mainnet" "mainnet" true =
      .ok (r2, writeFileSync
        (writeFileSync (inputFilesFS "deployed/mainnet")
          (pathJoin "deployed/mainnet" DEPLOYMENT_FILENAME)
          "\x7b\n\t\"targets\": \x7b\x7d,\n\t\"sources\": \x7b\x7d\n\x7d\n")
        (pathJoin "deployed/mainnet" OWNER_ACTIONS_FILENAME) "{}\n") ∧
      (∃ dfs2, r2.deployment = .obj dfs2 ∧
        flookup dfs2 "targets" = some (.obj .nil) ∧
        flookup dfs2 "sources" = some (.obj .nil)) := by
  obtain ⟨r2, ht, hsh, _⟩ := loadAndCheck_freshDeploy_spec
    (inputFilesFS "deployed/mainnet") "deployed/mainnet" "mainnet" _
    (writeFileSync
      (writeFileSync (inputFilesFS "deployed/mainnet")
        (pathJoin "deployed/mainnet" DEPLOYMENT_FILENAME)
        "\x7b\n\t\"targets\": \x7b\x7d,\n\t\"sources\": \x7b\x7d\n\x7d\n")
      (pathJoin "deployed/mainnet" OWNER_ACTIONS_FILENAME) "{}\n")
    (fun s hs => nomatch hs) rfl
  exact ⟨r2, ht, hsh⟩

/-- Witness for claim C7: the example ledger with a BigNumber-shaped
data payload round-trips through `stringify` and `JSON.parse`. -/
theorem stringify_ledger_roundtrip_witness :
    goodJ (.obj exampleLedger) = true ∧ isBNShapeF exampleLedger = false ∧
    ∃ fs2 out, transformF exampleLedger = .ok fs2 ∧
      fkeys fs2 = fkeys exampleLedger ∧
      stringify (.obj exampleLedger) = .ok out ∧
      jsonParse out = some (.obj fs2) ∧
      out = (⟨serJ 0 (.obj fs2) ++ ['\n']⟩ : String) ∧
      out.data.getLast? = some '\n' :=
  ⟨by decide, by decide,
    stringify_ledger_roundtrip exampleLedger (by decide) (by decide)⟩
